import Mathlib

/- Verification development for the `structuring.py` stage of notion4ever-patched.

   Shallow embedding conventions:
   * Python dicts are insertion-ordered association lists `List (String × α)`;
     assignment to an existing key replaces the value in place (keeping the key
     position), assignment to a fresh key appends at the end, exactly like
     CPython dicts.
   * Absent JSON keys are `Option.none`; machine strings are Lean `String`.
   * Raised Python exceptions are `Except` errors; unbounded recursion is
     modeled with an explicit fuel argument.
   * External collaborators that are not part of `src/` (the markdown binder
     `markdown_parser`, the `dateutil` ISO parser, the network and the file
     system) are modeled from the spec, each marked in its doc comment. -/

namespace Notion4Ever

/-! ## Python style string primitives -/

/-- The character set stripped by Python `str.strip()` (ASCII portion, which is
the relevant one for the titles handled by the source). -/
def pyWhitespace (c : Char) : Bool :=
  c = ' ' || c = '\t' || c = '\n' || c = '\r' || c = '\x0b' || c = '\x0c'

/-- Strip characters satisfying `p` from both ends, like Python `str.strip`. -/
def stripBy (p : Char → Bool) (s : List Char) : List Char :=
  ((s.dropWhile p).reverse.dropWhile p).reverse

/-- Python `str.strip()` with no argument. -/
def pyStrip (s : String) : String := ⟨stripBy pyWhitespace s.data⟩

/-- Python `value.replace(a, b)` for a single-character pattern and
single-character replacement (equivalent to a character map). -/
def replaceChar (a b : Char) (s : List Char) : List Char :=
  s.map (fun c => if c = a then b else c)

/-- One step of Python `str.replace` semantics on character lists: scan left to
right, replace each non-overlapping occurrence of `pat` by `rep`.  The fuel is
instantiated with the length of the string, which suffices because each step
consumes at least one character when `pat` is nonempty. -/
def replaceAllAux (pat rep : List Char) : Nat → List Char → List Char
  | 0, s => s
  | _ + 1, [] => []
  | fuel + 1, c :: rest =>
    if pat.isPrefixOf (c :: rest) then
      rep ++ replaceAllAux pat rep fuel ((c :: rest).drop pat.length)
    else
      c :: replaceAllAux pat rep fuel rest

/-- Python `s.replace(pat, rep)` for a nonempty pattern (every pattern replaced
in the source is a URL, hence nonempty; for an empty pattern we return `s`
unchanged). -/
def pyReplace (s pat rep : String) : String :=
  if pat.data = [] then s
  else ⟨replaceAllAux pat.data rep.data s.data.length s.data⟩

/-- Python `pat in s` substring test. -/
def strContainsAux (pat : List Char) : List Char → Bool
  | [] => pat.isPrefixOf []
  | c :: rest => pat.isPrefixOf (c :: rest) || strContainsAux pat rest

/-- Python `pat in s`. -/
def strContains (s pat : String) : Bool := strContainsAux pat.data s.data

/-! ## Decimal rendering (Python f-string `{i}` for a nonnegative integer) -/

/-- The decimal digit characters. -/
def digitChar (d : Nat) : Char :=
  match d with
  | 0 => '0' | 1 => '1' | 2 => '2' | 3 => '3' | 4 => '4'
  | 5 => '5' | 6 => '6' | 7 => '7' | 8 => '8' | 9 => '9'
  | _ => '*'

/-- Digits of `n`, most significant first; the fuel bounds the recursion depth
and `fuel = n` always suffices. -/
def natDecAux : Nat → Nat → List Char
  | 0, _ => []
  | fuel + 1, n => if n = 0 then [] else natDecAux fuel (n / 10) ++ [digitChar (n % 10)]

/-- Decimal rendering of a natural number, as Python renders `i` in
`f"\x7bstem\x7d_\x7bi\x7d\x7bsuffix\x7d"`. -/
def natDec (n : Nat) : String := if n = 0 then "0" else ⟨natDecAux n n⟩

/-- Value of a digit string, a left inverse used to prove `natDec` injective. -/
def decVal (l : List Char) : Nat := l.foldl (fun a c => 10 * a + (c.toNat - 48)) 0

/-! ## `clean_url_string` (structuring.py lines 31-51) -/

/-- The character class of the sanitizing regex
`[<>:"/\\|?*\x00-\x1F]` (Windows-forbidden plus control characters). -/
def forbiddenChar (c : Char) : Bool :=
  c = '<' || c = '>' || c = ':' || c = '"' || c = '/' || c = '\\' ||
    c = '|' || c = '?' || c = '*' || decide (c.toNat < 32)

/-- Lines 42-49 of `clean_url_string`: the four single-character replaces, the
forbidden-character regex substitution, and the trailing dot/space strip. -/
def sanitizeChars (w : List Char) : List Char :=
  stripBy (fun c => c = ' ' || c = '.')
    ((replaceChar ' ' '_' (replaceChar ':' '_'
      (replaceChar '\\' '_' (replaceChar '$' '_' w)))).map
        (fun c => if forbiddenChar c then '_' else c))

/-- `clean_url_string(value, fallback)`: make a safe filename/url slug from a
title.  `value = none` models Python `None`; the source also accepts arbitrary
non-string values through `str(value)`, which the embedding restricts to
strings. -/
def cleanUrlString (value : Option String) (fallback : String) : String :=
  let v0 := value.getD fallback
  let v1 := pyStrip v0
  let v2 := if v1 = "" then fallback else v1
  let v5 := sanitizeChars v2.data
  if v5 = [] then fallback else ⟨v5⟩

/-! ## Python dict operations on insertion-ordered association lists -/

/-- `d[k]` read access returning `Option` (`d.get(k)`). -/
def dictGet {κ α : Type} [DecidableEq κ] (k : κ) : List (κ × α) → Option α
  | [] => none
  | (k₁, v) :: rest => if k₁ = k then some v else dictGet k rest

/-- `d[k] = v`: replace in place when the key exists (CPython keeps the key
position), append otherwise. -/
def dictSet {κ α : Type} [DecidableEq κ] (k : κ) (v : α) :
    List (κ × α) → List (κ × α)
  | [] => [(k, v)]
  | (k₁, v₁) :: rest =>
    if k₁ = k then (k₁, v) :: rest else (k₁, v₁) :: dictSet k v rest

/-- In-place mutation of an existing entry (`d[k].field = ...`); a no-op when
the key is absent, which the call sites guard against. -/
def dictUpdate {κ α : Type} [DecidableEq κ] (k : κ) (f : α → α) :
    List (κ × α) → List (κ × α)
  | [] => []
  | (k₁, v₁) :: rest =>
    if k₁ = k then (k₁, f v₁) :: rest else (k₁, v₁) :: dictUpdate k f rest

/-- `k in d`. -/
def dictMem {κ α : Type} [DecidableEq κ] (k : κ) (d : List (κ × α)) : Bool :=
  (dictGet k d).isSome

/-! ## Posix path helpers (`pathlib.PurePosixPath` on the URL strings built by
the source; every URL the source builds is a plain `/`-joined relative path). -/

/-- Split a character list at `'/'` (the component list of `s.split("/")`,
never empty). -/
def splitSlash : List Char → List (List Char)
  | [] => [[]]
  | '/' :: rest => [] :: splitSlash rest
  | c :: rest =>
    match splitSlash rest with
    | [] => [[c]]
    | w :: ws => (c :: w) :: ws

/-- Join components with `'/'`. -/
def joinSlash : List (List Char) → List Char
  | [] => []
  | [w] => w
  | w :: ws => w ++ '/' :: joinSlash ws

/-- `Path(s).name`: the final path component. -/
def pathName (s : String) : String := ⟨(splitSlash s.data).getLastD []⟩

/-- `str(Path(s).parent)`: everything before the final component, or `"."` when
there is a single component. -/
def pathDir (s : String) : String :=
  let parts := splitSlash s.data
  if parts.length ≤ 1 then "." else ⟨joinSlash parts.dropLast⟩

/-- Index of the last `'.'` in a character list, if any (Python `str.rfind`). -/
def rfindDot : List Char → Option Nat
  | [] => none
  | c :: rest =>
    match rfindDot rest with
    | some i => some (i + 1)
    | none => if c = '.' then some 0 else none

/-- `(Path(name).stem, Path(name).suffix)` for a single component: pathlib
takes the suffix from the last dot only when that dot is neither the first nor
the last character of the name. -/
def stemExt (name : String) : String × String :=
  let cs := name.data
  match rfindDot cs with
  | some i =>
    if 0 < i ∧ i < cs.length - 1 then (⟨cs.take i⟩, ⟨cs.drop i⟩) else (name, "")
  | none => (name, "")

/-- `_ensure_posix(Path(dir) / name)`: pathlib drops a `"."` parent. -/
def joinRel (dir name : String) : String :=
  if dir = "." then name else dir ++ "/" ++ name

/-! ## `_unique_url` (structuring.py lines 218-237) -/

/-- The candidate produced by one iteration of the `_unique_url` loop:
`f"\x7bstem\x7d_\x7bi\x7d\x7bsuffix\x7d"` re-attached to the parent directory. -/
def suffixedUrl (candidate : String) (i : Nat) : String :=
  let dir := pathDir candidate
  let se := stemExt (pathName candidate)
  joinRel dir (se.1 ++ "_" ++ natDec i ++ se.2)

/-- Bounded linear search: first `j` in `[i, i + fuel)` with `p j = true`.
This is the `while True: ...; i += 1` loop of `_unique_url`, which starts at
`i = 2`; a fuel of `urls.length + 1` is enough by a pigeonhole argument proved
below, so the bounded search is an exact embedding of the unbounded loop. -/
def searchFrom (p : Nat → Bool) : Nat → Nat → Option Nat
  | _, 0 => none
  | i, fuel + 1 => if p i then some i else searchFrom p (i + 1) fuel

/-- `_unique_url(candidate, structured_notion)`: return the candidate if it is
not yet taken, otherwise the first free suffixed variant `stem_i` for
`i = 2, 3, ...`. -/
def uniqueUrl (candidate : String) (urls : List String) : String :=
  if candidate ∈ urls then
    match searchFrom (fun i => !(decide (suffixedUrl candidate i ∈ urls))) 2
        (urls.length + 1) with
    | some i => suffixedUrl candidate i
    | none => candidate
  else candidate

/-! ## Raw record model (the flat id → record map produced by the crawler)

The nested JSON records are modeled structurally: each field mirrors one key
path actually accessed by `structuring.py`, with `Option.none` for an absent
key. -/

/-- The `parent` object of a raw record. -/
structure RawParent where
  /-- `parent["type"]`, accessed unguarded at line 97. -/
  ptype : Option String := none
  /-- Whether the `"workspace"` key is present in the parent object. -/
  workspace : Bool := false
  /-- `parent.get("page_id")`. -/
  page_id : Option String := none
  /-- `parent.get("database_id")`. -/
  database_id : Option String := none
deriving Repr, DecidableEq

/-- The `icon` object: emoji, hosted file, external link, or an unrecognized
dict.  A missing, `None` or non-dict icon is `Option.none` at the use site. -/
inductive RawIcon where
  | emoji (e : String)
  | fileIcon (url : Option String)
  | externalIcon (url : Option String)
  | otherIcon
deriving Repr, DecidableEq

/-- `{"url": ...}` payload inside a files property item. -/
structure RawFileInner where
  url : Option String := none
deriving Repr, DecidableEq

/-- One item of a files property, as read by `_extract_notion_file_url`. -/
structure RawFile where
  ftype : Option String := none
  fileObj : Option RawFileInner := none
  externalObj : Option RawFileInner := none
deriving Repr, DecidableEq

/-- A `date` property payload; `dateEnd` models the `"end"` key. -/
structure RawDate where
  start : Option String := none
  dateEnd : Option String := none
deriving Repr, DecidableEq

/-- One typed property of a raw record.  Rich-text run lists are modeled by
their `plain_text` fields; JSON numbers are modeled as integers; a select or
person is modeled by its `name` field. -/
structure RawProp where
  ptype : Option String := none
  /-- The `"title"` key of a title-typed property: its rich-text runs. -/
  titleRuns : Option (List (Option String)) := none
  rich_text : List (Option String) := []
  number : Option Int := none
  /-- `some name?` when the `select` value is a non-`None` object. -/
  select : Option (Option String) := none
  multi_select : List (Option String) := []
  date : Option RawDate := none
  people : List (Option String) := []
  files : List RawFile := []
  checkbox : Bool := false
  url : Option String := none
  email : Option String := none
  phone_number : Option String := none
  created_time : Option String := none
  last_edited_time : Option String := none
deriving Repr, DecidableEq

/-- One raw record of the crawl output. -/
structure RawPage where
  /-- `page["object"]`, accessed unguarded at line 96. -/
  object : Option String := none
  /-- `page["parent"]`, accessed unguarded at line 97. -/
  parent : Option RawParent := none
  /-- `page.get("properties", {})` as an ordered name → property dict. -/
  properties : List (String × RawProp) := []
  /-- For databases: `page.get("title", [])`, each entry modeling the
  `text.content` of one run (the intermediate keys are assumed present). -/
  dbTitle : List String := []
  last_edited_time : Option String := none
  /-- `page.get("cover")`: `none` when absent or `None`; `some u?` when
  present, where `u?` is the first `"url"` found by `recursive_search`
  (`none` when the search finds nothing, which makes line 156 raise). -/
  cover : Option (Option String) := none
  /-- `page.get("icon")` when it is a dict, else `none`. -/
  icon : Option RawIcon := none
deriving Repr, DecidableEq

/-- `_extract_notion_file_url(file_obj)` (lines 67-81). -/
def extractNotionFileUrl (f : RawFile) : Option String :=
  match f.ftype, f.fileObj, f.externalObj with
  | some "file", some inner, _ => inner.url
  | some "external", _, some inner => inner.url
  | _, _, _ => none

/-! ## Structured node model (`notion_pages` entries and later stages) -/

/-- One structured node.  Fields that `parse_headers` only sets on some paths
(`title`, `date`, ...) conflate a key that is absent with a key holding `None`;
every later read in the source goes through `.get`, for which the two agree.
The one exception is discussed at `parseFamilyLineFuel`. -/
structure NPage where
  files : List String := []
  children : List String := []
  type : Option String := none
  title : Option String := none
  last_edited_time : Option String := none
  date : Option String := none
  date_end : Option String := none
  parent : Option String := none
  cover : Option String := none
  emoji : Option String := none
  icon : Option String := none
  url : Option String := none
  md_content : Option String := none
  description : Option String := none
  properties : List (String × RawProp) := []
  properties_md : List (String × String) := []
  family_line : List String := []
  db_list : Bool := false
deriving Repr, DecidableEq

/-- Python exceptions raised by the structuring stage. -/
inductive Err where
  | keyError (ctx : String)
  | indexError (ctx : String)
  | typeError (ctx : String)
  | recursionError
  | fuelExhausted
  | urlError (u : String)
  | valueErr (ctx : String)
deriving Repr, DecidableEq

/-- Equality of `Except` results is decidable componentwise. -/
def exceptDecEq {ε α : Type} [DecidableEq ε] [DecidableEq α] :
    (a b : Except ε α) → Decidable (a = b)
  | .ok a, .ok b =>
    if h : a = b then isTrue (by rw [h])
    else isFalse (fun he => by cases he; exact h rfl)
  | .error e, .error f =>
    if h : e = f then isTrue (by rw [h])
    else isFalse (fun he => by cases he; exact h rfl)
  | .ok _, .error _ => isFalse (fun he => by cases he)
  | .error _, .ok _ => isFalse (fun he => by cases he)

instance {ε α : Type} [DecidableEq ε] [DecidableEq α] :
    DecidableEq (Except ε α) := exceptDecEq

/-- Modelled from the spec: `markdown_parser.richtext_convertor` is part of the
content-binding collaborator, absent from `src/`; §4.1 describes it as
rendering the rich-text runs to plain text, which the model does by
concatenating the `plain_text` fields. -/
def richtextConvertor (runs : List (Option String)) : String :=
  String.join (runs.map (fun r => r.getD ""))

/-- `recursive_search("title", properties)` followed by `res[0]`: the runs of
the first property carrying a `"title"` key, in property order. -/
def firstTitleRuns (props : List (String × RawProp)) : Option (List (Option String)) :=
  props.findSome? (fun kv => kv.2.titleRuns)

/-! ## `parse_headers` (structuring.py lines 84-187) -/

/-- The loop body of `parse_headers` for one record, mirroring the source
line by line; the unconditional reset at line 93 comes first. -/
def parseHeadersStep (d : List (String × NPage)) (pid : String) (pg : RawPage) :
    Except Err (List (String × NPage)) := do
  -- line 93: notion_pages[page_id] = .files [] .children [] (resets any placeholder)
  let d := dictSet pid {} d
  -- lines 96-98: page["object"] and page["parent"]["type"] are required
  let obj ← match pg.object with
    | some o => pure o
    | none => throw (.keyError "object")
  let par ← match pg.parent with
    | some p => pure p
    | none => throw (.keyError "parent")
  let pty ← match par.ptype with
    | some t => pure t
    | none => throw (.keyError "parent.type")
  let ty := if pty = "database_id" then "db_entry" else obj
  let d := dictUpdate pid (fun r => { r with type := some ty }) d
  -- lines 100-121: type-specific title extraction
  let title : Option String :=
    if ty = "page" then
      match ((dictGet "title" pg.properties).bind (fun pr => pr.titleRuns)).getD [] with
      | [] => none
      | r :: _ => r
    else if ty = "database" then
      match pg.dbTitle with
      | [] => none
      | t :: _ => some t
    else if ty = "db_entry" then
      match firstTitleRuns pg.properties with
      | some runs => if runs.isEmpty then none else some (richtextConvertor runs)
      | none => none
    else none
  let d := dictUpdate pid (fun r => { r with title := title }) d
  -- line 124
  let d := dictUpdate pid
    (fun r => { r with last_edited_time := pg.last_edited_time }) d
  -- lines 127-132: optional Date property for db_entry
  let d := if ty = "db_entry" then
      match dictGet "Date" pg.properties with
      | some pr =>
        match pr.date with
        | some dd =>
          dictUpdate pid
            (fun r => { r with date := dd.start, date_end := dd.dateEnd }) d
        | none => d
      | none => d
    else d
  -- lines 134-145: parent resolution
  let parentId : Option String :=
    if par.workspace then none
    else if ty = "page" || ty = "database" then par.page_id
    else if ty = "db_entry" then par.database_id
    else none
  let d := dictUpdate pid (fun r => { r with parent := parentId }) d
  -- lines 147-152: attach as child, creating a placeholder parent if needed
  let d := match parentId with
    | some parId =>
      let d := if dictMem parId d then d else dictSet parId {} d
      dictUpdate parId (fun r => { r with children := r.children ++ [pid] }) d
    | none => d
  -- lines 154-160: cover
  let d ← match pg.cover with
    | some (some u) =>
      pure (dictUpdate pid
        (fun r => { r with cover := some u, files := r.files ++ [u] }) d)
    | some none => throw (.indexError "cover url")
    | none => pure (dictUpdate pid (fun r => { r with cover := none }) d)
  -- lines 162-185: icon, with the Python truthiness check on the url
  let d := match pg.icon with
    | some (.emoji e) =>
      dictUpdate pid (fun r => { r with emoji := some e, icon := none }) d
    | some (.fileIcon u?) =>
      dictUpdate pid (fun r =>
        { r with icon := u?, emoji := none,
                 files := r.files ++
                   (match u? with
                    | some u => if u = "" then [] else [u]
                    | none => []) }) d
    | some (.externalIcon u?) =>
      dictUpdate pid (fun r =>
        { r with icon := u?, emoji := none,
                 files := r.files ++
                   (match u? with
                    | some u => if u = "" then [] else [u]
                    | none => []) }) d
    | some .otherIcon =>
      dictUpdate pid (fun r => { r with icon := none, emoji := none }) d
    | none => dictUpdate pid (fun r => { r with icon := none, emoji := none }) d
  pure d

/-- `parse_headers(raw_notion)`. -/
def parseHeaders (raw : List (String × RawPage)) :
    Except Err (List (String × NPage)) :=
  raw.foldlM (fun d kv => parseHeadersStep d kv.1 kv.2) []

/-! ## Site model and the remaining pipeline stages -/

/-- One `search_index` entry. -/
structure SearchEntry where
  title : Option String := none
  content : String := ""
  url : Option String := none
deriving Repr, DecidableEq

/-- The `structured_notion` dict. -/
structure Model where
  pages : List (String × NPage) := []
  urls : List String := []
  root_page_id : String := ""
  include_footer : Bool := false
  include_search : Bool := false
  build_locally : Bool := false
  sorted_id_by_year : List (Nat × List String) := []
  search_index : List SearchEntry := []
deriving Repr, DecidableEq

/-- The configuration keys consumed by the structuring stage. -/
structure Config where
  include_footer : Bool := false
  include_search : Bool := false
  build_locally : Bool := false
  download_files : Bool := false
  output_dir : String := "_site"
deriving Repr, DecidableEq

/-! ## `find_lists_in_dbs` (lines 190-197) -/

/-- The inner `for child_id in ...: if ...: db_list = True; break` loop:
whether some child, scanned in order, lacks a cover; raises on a child id
that is not a key of the pages dict, like the source subscript. -/
def firstCoverless (pages : List (String × NPage)) :
    List String → Except Err Bool
  | [] => pure false
  | cid :: rest =>
    match dictGet cid pages with
    | some c => if c.cover.isNone then pure true else firstCoverless pages rest
    | none => throw (.keyError cid)

/-- `find_lists_in_dbs`: treat a database as a list when any child has no
cover.  The subscript `page["type"]` raises on an unvisited placeholder
record, whose `type` key was never set. -/
def findListsInDbs (m : Model) : Except Err Model := do
  let ps ← m.pages.mapM (fun kv => do
    let (pid, p) := kv
    let ty ← match p.type with
      | some t => pure t
      | none => throw (Err.keyError "type")
    if ty = "database" then do
      let coverless ← firstCoverless m.pages p.children
      pure (pid, if coverless then { p with db_list := true } else p)
    else pure (pid, p))
  pure { m with pages := ps }

/-! ## `parse_family_line` / `parse_family_lines` (lines 200-211) -/

/-- `parse_family_line(page_id, family_line, structured_notion)` with an
explicit recursion budget: the source recurses on the parent pointer with no
cycle check, so nontermination is modeled as `none` for every fuel value.

Two conflations, both covered by the crawl completeness guarantee of spec §6
(every referenced id is a key): a missing `page_id` key and a placeholder
record without a `parent` key would raise in Python but fall into the
`none`-parent branch here. -/
def parseFamilyLineFuel (pages : List (String × NPage)) :
    Nat → String → List String → Option (List String)
  | 0, _, _ => none
  | fuel + 1, pid, line =>
    match (dictGet pid pages).bind (fun p => p.parent) with
    | some parId => parseFamilyLineFuel pages fuel parId (parId :: line)
    | none => some line

/-- `parse_family_lines`: fuel exhaustion models the interpreter recursion
limit blowing up. -/
def parseFamilyLines (fuel : Nat) (m : Model) : Except Err Model := do
  let ps ← m.pages.mapM (fun kv => do
    match parseFamilyLineFuel m.pages fuel kv.1 [] with
    | some fl => pure (kv.1, { kv.2 with family_line := fl })
    | none => throw Err.recursionError)
  pure { m with pages := ps }

/-! ## `generate_urls` (lines 240-285) -/

/-- `_is_container_page(page)`. -/
def isContainerPage (p : NPage) : Bool :=
  p.type = some "database" || !p.children.isEmpty

/-- Lines 261-279: the candidate url before collision resolution.  The root
gets the canonical index name; every other node gets its slug placed in the
directory of the parent url. -/
def candidateUrl (pid : String) (m : Model) : Except Err String :=
  if pid = m.root_page_id then pure "index.html"
  else do
    let page ← match dictGet pid m.pages with
      | some p => pure p
      | none => throw (Err.keyError pid)
    let parentPage := page.parent.bind (fun parId => dictGet parId m.pages)
    let parentUrl ← match parentPage with
      | some pp =>
        match pp.url with
        | some u => pure u
        -- Path(None) raises TypeError
        | none => throw (Err.typeError "parent url")
      | none => pure "index.html"
    let parentDir := pathDir parentUrl
    let slug := cleanUrlString page.title ("untitled_" ++ pid.take 8)
    pure (if isContainerPage page then
        joinRel (joinRel parentDir slug) "index.html"
      else joinRel parentDir (slug ++ ".html"))

/-- The model after one url assignment (lines 280-282). -/
def assignUrl (pid url : String) (m : Model) : Model :=
  let u := uniqueUrl url m.urls
  { m with
    pages := dictUpdate pid (fun p => { p with url := some u }) m.pages,
    urls := m.urls ++ [u] }

/-- `generate_urls` linearized: the source recurses into the children after
assigning the own url; the explicit stack (children pushed in front of the
remaining work) performs the identical depth-first pre-order sequence of
assignments.  Fuel exhaustion models the interpreter recursion limit. -/
def generateUrlsList : Nat → List String → Model → Except Err Model
  | 0, _, _ => throw Err.fuelExhausted
  | _ + 1, [], m => pure m
  | fuel + 1, pid :: stack, m => do
    let url ← candidateUrl pid m
    if dictMem pid m.pages then
      let m := assignUrl pid url m
      let children := ((dictGet pid m.pages).map (fun p => p.children)).getD []
      generateUrlsList fuel (children ++ stack) m
    -- pages[page_id]["url"] = ... raises when the id is not a key
    else throw (Err.keyError pid)

/-- `generate_urls(root_page_id, structured_notion, config)`. -/
def generateUrls (fuel : Nat) (pid : String) (m : Model) : Except Err Model :=
  generateUrlsList fuel [pid] m

/-! ## Datetime model (`dateutil.parser.isoparse` and `strftime`) -/

/-- A parsed naive datetime. -/
structure PyDateTime where
  year : Nat := 0
  month : Nat := 1
  day : Nat := 1
  hour : Nat := 0
  minute : Nat := 0
  second : Nat := 0
deriving Repr, DecidableEq

/-- Mixed-radix encoding; thanks to the bounds checked by the parser it orders
datetimes exactly like Python datetime comparison (timezone offsets are not
modeled). -/
def dtVal (d : PyDateTime) : Nat :=
  ((((d.year * 13 + d.month) * 32 + d.day) * 24 + d.hour) * 60 + d.minute) * 60
    + d.second

/-- Numeric value of two ASCII digits. -/
def d2 (a b : Char) : Nat := (a.toNat - 48) * 10 + (b.toNat - 48)

/-- Shape-and-digit parse of an ISO-8601 date or datetime, before range
validation: `YYYY-MM-DD`, optionally followed by a `T`- or space-separated
`HH:MM` or `HH:MM:SS` (any further fraction or offset suffix is ignored). -/
def parseIsoFields : List Char → Option PyDateTime
  | y1 :: y2 :: y3 :: y4 :: '-' :: m1 :: m2 :: '-' :: a1 :: a2 :: rest =>
    if [y1, y2, y3, y4, m1, m2, a1, a2].all Char.isDigit then
      let y := ((d2 y1 y2) * 10 + (y3.toNat - 48)) * 10 + (y4.toNat - 48)
      let mo := d2 m1 m2
      let da := d2 a1 a2
      match rest with
      | [] => some { year := y, month := mo, day := da }
      | sep :: h1 :: h2 :: ':' :: n1 :: n2 :: restT =>
        if (sep = 'T' || sep = ' ') && [h1, h2, n1, n2].all Char.isDigit then
          match restT with
          | [] => some { year := y, month := mo, day := da,
                         hour := d2 h1 h2, minute := d2 n1 n2 }
          | ':' :: s1 :: s2 :: _ =>
            if s1.isDigit && s2.isDigit then
              some { year := y, month := mo, day := da,
                     hour := d2 h1 h2, minute := d2 n1 n2, second := d2 s1 s2 }
            else none
          | _ => none
        else none
      | _ => none
    else none
  | _ => none

/-- The calendar/clock range check `dateutil` performs. -/
def dtValidB (d : PyDateTime) : Bool :=
  decide (1 ≤ d.month) && decide (d.month ≤ 12) && decide (1 ≤ d.day) &&
    decide (d.day ≤ 31) && decide (d.hour ≤ 23) && decide (d.minute ≤ 59) &&
    decide (d.second ≤ 59)

/-- Modelled from the spec: `dateutil.parser.isoparse` is an external library,
absent from `src/`; the spec (§4.6) only requires parsing the stored ISO-8601
date strings to instants.  Shape, digit or range violations raise
`ValueError`. -/
def isoparse (s : String) : Except Err PyDateTime :=
  match parseIsoFields s.data with
  | some d => if dtValidB d then Except.ok d else throw (.valueErr s)
  | none => throw (.valueErr s)

/-- `%b` month abbreviation. -/
def monthAbbr (m : Nat) : String :=
  match m with
  | 1 => "Jan" | 2 => "Feb" | 3 => "Mar" | 4 => "Apr" | 5 => "May" | 6 => "Jun"
  | 7 => "Jul" | 8 => "Aug" | 9 => "Sep" | 10 => "Oct" | 11 => "Nov"
  | 12 => "Dec" | _ => ""

/-- `%d` zero padding. -/
def pad2 (n : Nat) : String := if n < 10 then "0" ++ natDec n else natDec n

/-- `dt.strftime("%d %b, %Y")`. -/
def strftimeDMY (d : PyDateTime) : String :=
  pad2 d.day ++ " " ++ monthAbbr d.month ++ ", " ++ natDec d.year

/-! ## Property handlers (lines 292-368) -/

/-- Decimal rendering of an integer (`str(number)` for the integer-restricted
number model). -/
def intDec (n : Int) : String :=
  if n < 0 then "-" ++ natDec n.natAbs else natDec n.natAbs

/-- `p_rich_text`. -/
def pRichText (p : RawProp) : String := richtextConvertor p.rich_text

/-- `p_number`. -/
def pNumber (p : RawProp) : String :=
  match p.number with
  | some n => intDec n
  | none => ""

/-- `p_select`. -/
def pSelect (p : RawProp) : String :=
  match p.select with
  | some name? => name?.getD ""
  | none => ""

/-- Keep the truthy names of a name list (`if t.get("name")`). -/
def truthyNames (l : List (Option String)) : List String :=
  l.filterMap (fun t =>
    match t with
    | some s => if s = "" then none else some s
    | none => none)

/-- `p_multi_select`. -/
def pMultiSelect (p : RawProp) : String :=
  String.intercalate "; " (truthyNames p.multi_select)

/-- `p_date`; parse failures raise like `dateutil` does. -/
def pDate (p : RawProp) : Except Err String :=
  match p.date with
  | none => pure ""
  | some dd =>
    match dd.start with
    | none => pure ""
    | some st =>
      if st = "" then pure ""
      else do
        let d ← isoparse st
        let out := strftimeDMY d
        match dd.dateEnd with
        | some en =>
          if en = "" then pure out
          else do
            let de ← isoparse en
            pure (out ++ " - " ++ strftimeDMY de)
        | none => pure out

/-- `p_people`. -/
def pPeople (p : RawProp) : String :=
  String.intercalate "; " (truthyNames p.people)

/-- `p_files`. -/
def pFiles (p : RawProp) : String :=
  String.intercalate "; " (p.files.filterMap (fun f =>
    match extractNotionFileUrl f with
    | some u => if u = "" then none else some ("[📎](" ++ u ++ ")")
    | none => none))

/-- `p_checkbox`. -/
def pCheckbox (p : RawProp) : String :=
  if p.checkbox then "- [x]" else "- [ ]"

/-- `p_url`. -/
def pUrl (p : RawProp) : String :=
  match p.url with
  | some u => if u = "" then "" else "[🕸](" ++ u ++ ")"
  | none => ""

/-- `p_email`. -/
def pEmail (p : RawProp) : String := (p.email.getD "")

/-- `p_phone_number`. -/
def pPhone (p : RawProp) : String := (p.phone_number.getD "")

/-- `p_created_time`. -/
def pCreatedTime (p : RawProp) : Except Err String :=
  match p.created_time with
  | some t =>
    if t = "" then pure ""
    else do
      let d ← isoparse t
      pure (strftimeDMY d)
  | none => pure ""

/-- `p_last_edited_time`. -/
def pLastEditedTime (p : RawProp) : Except Err String :=
  match p.last_edited_time with
  | some t =>
    if t = "" then pure ""
    else do
      let d ← isoparse t
      pure (strftimeDMY d)
  | none => pure ""

/-- The `properties_map` dispatch: `some` when the property kind is supported,
mirroring the table at lines 372-386. -/
def propertiesMap (t : String) (pr : RawProp) : Option (Except Err String) :=
  if t = "rich_text" then some (pure (pRichText pr))
  else if t = "number" then some (pure (pNumber pr))
  else if t = "select" then some (pure (pSelect pr))
  else if t = "multi_select" then some (pure (pMultiSelect pr))
  else if t = "date" then some (pDate pr)
  else if t = "people" then some (pure (pPeople pr))
  else if t = "files" then some (pure (pFiles pr))
  else if t = "checkbox" then some (pure (pCheckbox pr))
  else if t = "url" then some (pure (pUrl pr))
  else if t = "email" then some (pure (pEmail pr))
  else if t = "phone_number" then some (pure (pPhone pr))
  else if t = "created_time" then some (pCreatedTime pr)
  else if t = "last_edited_time" then some (pLastEditedTime pr)
  else none

/-- The body of `parse_db_entry_properties` for one property of one entry:
threads `(properties_md, files)`. -/
def dbEntryPropStep (acc : List (String × String) × List String)
    (name : String) (pr : RawProp) :
    Except Err (List (String × String) × List String) :=
  if pr.ptype = some "title" then pure acc
  else do
    -- line 399: properties_md[name] = ""
    let base := dictSet name "" acc.1
    match pr.ptype with
    | some t =>
      match propertiesMap t pr with
      | some render => do
        -- the files kind additionally collects its urls (lines 404-408)
        let files := if t = "files" then
            acc.2 ++ pr.files.filterMap (fun f =>
              match extractNotionFileUrl f with
              | some u => if u = "" then none else some u
              | none => none)
          else acc.2
        let r ← render
        pure (dictSet name r base, files)
      | none => pure (base, acc.2)
    | none => pure (base, acc.2)

/-- `parse_db_entry_properties(raw_notion, structured_notion)`. -/
def parseDbEntryProperties (raw : List (String × RawPage)) (m : Model) :
    Except Err Model := do
  let ps ← m.pages.mapM (fun kv => do
    let (pid, p) := kv
    if p.type ≠ some "db_entry" then pure kv
    else do
      let rp ← match dictGet pid raw with
        | some rp => pure rp
        | none => throw (Err.keyError pid)
      let props := rp.properties
      let res ← props.foldlM (fun acc kv₂ => dbEntryPropStep acc kv₂.1 kv₂.2)
        (([] : List (String × String)), p.files)
      pure (pid, { p with properties := props, properties_md := res.1,
                          files := res.2 }))
  pure { m with pages := ps }

/-! ## `strip_html_tags` (lines 19-28) -/

/-- Index of the first `'>'` not preceded by a newline: the shortest span the
non-DOTALL regex `<.*?>` can close with. -/
def findGtBeforeNl : List Char → Option Nat
  | [] => none
  | c :: rest =>
    if c = '>' then some 0
    else if c = '\n' then none
    else (findGtBeforeNl rest).map (fun i => i + 1)

/-- `re.sub("<.*?>", " ", text)`: replace each shortest single-line `<...>`
span by one space; fuel is the input length. -/
def stripTagsAux : Nat → List Char → List Char
  | 0, s => s
  | _ + 1, [] => []
  | fuel + 1, c :: rest =>
    if c = '<' then
      match findGtBeforeNl rest with
      | some i => ' ' :: stripTagsAux fuel (rest.drop (i + 1))
      | none => c :: stripTagsAux fuel rest
    else c :: stripTagsAux fuel rest

/-- Modelled from the spec: Python `html.unescape` is standard-library code
outside `src/`; the model decodes the five predefined XML entities, which is
all the tag-stripping summary of §4.5 needs. -/
def unescapeHtml (s : String) : String :=
  pyReplace (pyReplace (pyReplace (pyReplace (pyReplace s
    "&lt;" "<") "&gt;" ">") "&quot;" (String.mk ['"']))
    "&#39;" (String.mk [Char.ofNat 39])) "&amp;" "&"

/-- `text.split()` (whitespace words); fuel is the input length plus one. -/
def pyWordsAux : Nat → List Char → List (List Char)
  | 0, _ => []
  | _ + 1, [] => []
  | fuel + 1, c :: rest =>
    if pyWhitespace c then pyWordsAux fuel rest
    else ((c :: rest).takeWhile (fun x => !pyWhitespace x)) ::
      pyWordsAux fuel ((c :: rest).dropWhile (fun x => !pyWhitespace x))

/-- `strip_html_tags(text)`. -/
def stripHtmlTags (s : String) : String :=
  if s = "" then ""
  else
    let t1 : String := ⟨stripTagsAux s.data.length s.data⟩
    let t2 := unescapeHtml t1
    String.intercalate " "
      ((pyWordsAux (t2.data.length + 1) t2.data).map (fun w => ⟨w⟩))

/-! ## `download_and_replace_paths` (lines 415-494) -/

/-- Hex digit value for `unquote`. -/
def hexVal (c : Char) : Option Nat :=
  if c.isDigit then some (c.toNat - 48)
  else if 97 ≤ c.toNat ∧ c.toNat ≤ 102 then some (c.toNat - 87)
  else if 65 ≤ c.toNat ∧ c.toNat ≤ 70 then some (c.toNat - 55)
  else none

/-- `urllib.parse.unquote`, byte-per-byte (multi-byte UTF-8 sequences are
decoded to their individual byte values in this model). -/
def unquoteAux : Nat → List Char → List Char
  | 0, s => s
  | _ + 1, [] => []
  | fuel + 1, '%' :: a :: b :: rest =>
    match hexVal a, hexVal b with
    | some x, some y => Char.ofNat (16 * x + y) :: unquoteAux fuel rest
    | _, _ => '%' :: unquoteAux fuel (a :: b :: rest)
  | fuel + 1, c :: rest => c :: unquoteAux fuel rest

/-- `unquote(s)`. -/
def unquote (s : String) : String := ⟨unquoteAux s.data.length s.data⟩

/-- Lines 446-450: `urljoin(file_url, urlparse(file_url).path)` strips the
query and fragment of the absolute http(s) URLs Notion serves; then the last
path component is percent-decoded and slug-cleaned with fallback `"file"`. -/
def deriveFileName (fileUrl : String) : String :=
  let cleanUrl : String := ⟨fileUrl.data.takeWhile (fun c => c ≠ '?' ∧ c ≠ '#')⟩
  cleanUrlString (some (unquote (pathName cleanUrl))) "file"

/-- `f"\x7bstem\x7d_\x7bi\x7d\x7bsuffix\x7d"` on a bare filename, used by
`_unique_file_path`. -/
def suffixedName (fname : String) (i : Nat) : String :=
  let se := stemExt fname
  se.1 ++ "_" ++ natDec i ++ se.2

/-- `_unique_file_path(target)` (lines 415-431), with the file system modeled
as the list of existing output-relative paths: return the first name
`fname, fname_2, fname_3, ...` whose path in `dir` does not exist.  As with
`_unique_url`, a bounded search embeds the unbounded loop; the bound is
justified by `uniqueFilePathName_not_mem` below. -/
def uniqueFilePathName (fs : List String) (dir fname : String) : String :=
  if joinRel dir fname ∈ fs then
    match searchFrom (fun i => !(decide (joinRel dir (suffixedName fname i) ∈ fs)))
        2 (fs.length + 1) with
    | some i => suffixedName fname i
    | none => fname
  else fname

/-- Outcome of `urllib.request.urlretrieve`, the network oracle. -/
inductive Fetch where
  /-- Download succeeded and wrote the target file. -/
  | ok
  /-- `urllib.error.HTTPError`: caught, logged, file skipped. -/
  | httpError
  /-- `ValueError` (for instance an unknown url type): caught, file skipped. -/
  | valueError
  /-- Any other exception (`URLError`, socket errors): not caught by the
  source, so it propagates. -/
  | otherError
deriving Repr, DecidableEq

/-- The mutable state of the download pass: the pages dict, the existing
files, and the warning-level log. -/
structure DLState where
  pages : List (String × NPage) := []
  fs : List String := []
  log : List String := []
deriving Repr, DecidableEq

/-- The target path of one asset: the directory of the page joined with the
collision-resolved filename derived from the URL. -/
def targetRel (fs : List String) (pageDirRel fileUrl : String) : String :=
  joinRel pageDirRel (uniqueFilePathName fs pageDirRel (deriveFileName fileUrl))

/-- Lines 472-494: the rewrite of one page for one successfully localized
file: the files entry at the snapshot index, the md content (with the
recomputed description), the exactly-matching icon and cover, and for database
entries every properties_md value, all through the same `targetRelUrl`. -/
def rewritePage (iFile : Nat) (fileUrl targetRelUrl : String) (p : NPage) : NPage :=
  let p := { p with files := p.files.set iFile targetRelUrl }
  let md := pyReplace (p.md_content.getD "") fileUrl targetRelUrl
  let p := { p with md_content := some md,
                    description := some ((stripHtmlTags md).take 150) }
  let p := { p with
    icon := if p.icon = some fileUrl then some targetRelUrl else p.icon,
    cover := if p.cover = some fileUrl then some targetRelUrl else p.cover }
  if p.type = some "db_entry" then
    { p with properties_md := p.properties_md.map (fun kv =>
        if strContains kv.2 fileUrl then (kv.1, pyReplace kv.2 fileUrl targetRelUrl)
        else kv) }
  else p

/-- Lines 445-494, one file of one page.  `pageDirRel` is the URL-relative
page folder; since every target lives under the fixed output root, file-system
paths are stored output-relative and coincide with the rewritten urls. -/
def processFile (fetch : String → Fetch) (pid : String) (pageDirRel : String)
    (st : DLState) (iFile : Nat) (fileUrl : String) : Except Err DLState := do
  let tname := uniqueFilePathName st.fs pageDirRel (deriveFileName fileUrl)
  let targetRelUrl := joinRel pageDirRel tname
  -- lines 460-470: fetch (the exists-branch only logs and proceeds)
  let fetched : DLState × Bool ←
    if targetRelUrl ∈ st.fs then pure (st, true)
    else
      match fetch fileUrl with
      | .ok => pure ({ st with fs := st.fs ++ [targetRelUrl] }, true)
      | .httpError => pure ({ st with log := st.log ++
          ["Cannot download " ++ tname ++ " from link " ++ fileUrl ++ "."] }, false)
      | .valueError => pure (st, false)
      | .otherError => throw (.urlError fileUrl)
  let (st, proceed) := fetched
  if !proceed then pure st
  else
    pure { st with
      pages := dictUpdate pid (rewritePage iFile fileUrl targetRelUrl) st.pages }

/-- Lines 437-445: one page of the outer loop; the files list is snapshotted
by `list(...)` before iterating. -/
def processPage (fetch : String → Fetch) (st : DLState) (pid : String) :
    Except Err DLState :=
  match dictGet pid st.pages with
  | none => pure st
  | some page =>
    match page.url with
    | none => pure st
    | some pageUrl =>
      if pageUrl = "" then pure st
      else
        let dir := pathDir pageUrl
        page.files.enum.foldlM
          (fun st₂ p => processFile fetch pid dir st₂ p.1 p.2) st

/-- `download_and_replace_paths(structured_notion, config)`; the initial `fs`
is the set of files already on disk under the output directory. -/
def downloadAndReplacePaths (fetch : String → Fetch) (fs₀ : List String)
    (m : Model) : Except Err DLState :=
  (m.pages.map (fun kv => kv.1)).foldlM (processPage fetch)
    { pages := m.pages, fs := fs₀ }

/-! ## `sorting_db_entries` (lines 498-517) -/

/-- Python string comparison: lexicographic on code points (Lean `String.le`
is observationally the same but does not reduce in the kernel, so the
embedding carries its own definition). -/
def charListLe : List Char → List Char → Bool
  | [], _ => true
  | _ :: _, [] => false
  | a :: as, b :: bs =>
    if a.toNat = b.toNat then charListLe as bs
    else decide (a.toNat < b.toNat)

/-- Python `s <= t` on strings. -/
def pyStrLe (s t : String) : Bool := charListLe s.data t.data

/-- Lexicographic order on the Python sort key `(0, date) | (1, "")`. -/
def keyLe (a b : Nat × String) : Prop :=
  a.1 < b.1 ∨ (a.1 = b.1 ∧ pyStrLe a.2 b.2 = true)

instance : DecidableRel keyLe := fun a b => by unfold keyLe; infer_instance

/-- The date string of a child (empty when absent). -/
def childDate (pages : List (String × NPage)) (cid : String) : String :=
  ((dictGet cid pages).bind (fun p => p.date)).getD ""

/-- The `sort_key` closure of `sorting_db_entries`. -/
def dbSortKey (pages : List (String × NPage)) (cid : String) : Nat × String :=
  match (dictGet cid pages).bind (fun p => p.date) with
  | some d => if d = "" then (1, "") else (0, d)
  | none => (1, "")

/-- Python `sorted(l, key=key)`: Python guarantees a stable ascending sort and
any two stable sorts of the same list under the same total preorder agree, so
insertion sort (which is stable for this orientation of the relation) is an
exact embedding. -/
def pySortedBy {α : Type} (key : α → Nat × String) (l : List α) : List α :=
  List.insertionSort (fun a b => keyLe (key a) (key b)) l

/-- Truthiness of `.get("date")`. -/
def dateTruthy (p? : Option NPage) : Bool :=
  match p?.bind (fun p => p.date) with
  | some d => d ≠ ""
  | none => false

/-- The per-page body of `sorting_db_entries`: only databases with more than
one child and at least one (truthy) dated child get their children list
replaced by the stable keyed sort. -/
def sortDbChildren (pages : List (String × NPage)) (p : NPage) : NPage :=
  if p.type ≠ some "database" then p
  else if p.children.length ≤ 1 then p
  else if !(p.children.any (fun cid => dateTruthy (dictGet cid pages))) then p
  else { p with children := pySortedBy (dbSortKey pages) p.children }

/-- `sorting_db_entries(structured_notion)`. -/
def sortingDbEntries (m : Model) : Model :=
  { m with pages := m.pages.map (fun kv => (kv.1, sortDbChildren m.pages kv.2)) }

/-! ## `sorting_page_by_year` (lines 521-535) -/

/-- `itertools.groupby` over the year key: maximal contiguous runs, each run
keeping the pair order; fuel is the input length. -/
def groupRunsAux : Nat → List (String × PyDateTime) → List (Nat × List String)
  | 0, _ => []
  | _ + 1, [] => []
  | fuel + 1, (pid, dt) :: rest =>
    let run := rest.takeWhile (fun q => q.2.year = dt.year)
    let rest₂ := rest.dropWhile (fun q => q.2.year = dt.year)
    (dt.year, pid :: run.map (fun q => q.1)) :: groupRunsAux fuel rest₂

/-- `groupby(sorted_pages.items(), key=lambda item: item[1].year)`. -/
def groupRuns (l : List (String × PyDateTime)) : List (Nat × List String) :=
  groupRunsAux l.length l

/-- `sorting_page_by_year(structured_notion)`: the dated pages (truthy date)
parsed, stably sorted descending, grouped into contiguous year runs, and
written year by year into the `sorted_id_by_year` dict. -/
def sortingPageByYear (m : Model) : Except Err Model := do
  let datedPairs ← (m.pages.filter (fun kv => dateTruthy (some kv.2))).mapM
    (fun kv => do
      let dt ← isoparse (kv.2.date.getD "")
      pure (kv.1, dt))
  -- sorted(..., key=lambda item: item[1], reverse=True): stable descending
  let sortedPairs := List.insertionSort
    (fun a b => dtVal b.2 ≤ dtVal a.2) datedPairs
  let grouped := groupRuns sortedPairs
  pure { m with sorted_id_by_year :=
    grouped.foldl (fun acc yr => dictSet yr.1 yr.2 acc) [] }

/-! ## `create_search_index` (lines 538-544) and the driver (lines 547-584) -/

/-- `create_search_index(structured_notion)`. -/
def createSearchIndex (m : Model) : Model :=
  { m with search_index := m.pages.filterMap (fun kv =>
      match kv.2.md_content with
      | some md => some { title := kv.2.title, content := stripHtmlTags md,
                          url := kv.2.url }
      | none => none) }

/-- Modelled from the spec: `markdown_parser.parse_markdown` is the
content-binding collaborator outside `src/` (§6: per-node markdown body text
plus any additional asset URLs, merged into the files list before the asset
localizer runs).  `mdBind pid = (body, extraUrls)`. -/
def parseMarkdown (mdBind : String → String × List String) (m : Model) : Model :=
  { m with pages := m.pages.map (fun kv =>
      (kv.1, { kv.2 with md_content := some (mdBind kv.1).1,
                         files := kv.2.files ++ (mdBind kv.1).2 })) }

/-- `structurize_notion_content(raw_notion, config)`.  The ambient effects are
explicit parameters: the network oracle, the pre-existing output files, the
content binder, and the recursion budget. -/
def structurizeNotionContent (fetch : String → Fetch) (fs₀ : List String)
    (mdBind : String → String × List String) (fuel : Nat)
    (raw : List (String × RawPage)) (config : Config) : Except Err Model := do
  -- line 549: list(raw_notion.keys())[0]
  let rootId ← match raw with
    | [] => throw (.indexError "root page id")
    | (k, _) :: _ => pure k
  let pages ← parseHeaders raw
  let m : Model := { pages := pages, urls := [], root_page_id := rootId,
                     include_footer := config.include_footer,
                     include_search := config.include_search,
                     build_locally := config.build_locally }
  let m ← findListsInDbs m
  let m ← parseFamilyLines fuel m
  let m ← generateUrls fuel m.root_page_id m
  let m := parseMarkdown mdBind m
  let m ← parseDbEntryProperties raw m
  let m ← if config.download_files then do
      let st ← downloadAndReplacePaths fetch fs₀ m
      pure { m with pages := st.pages }
    else pure m
  let m := sortingDbEntries m
  let m ← sortingPageByYear m
  let m := if config.include_search then createSearchIndex m
    else { m with search_index := [] }
  pure m

/-! ## Verification-side definitions -/

/-- The url values assigned to the nodes, in page order. -/
def assignedUrls (pages : List (String × NPage)) : List String :=
  pages.filterMap (fun kv => kv.2.url)

/-- Invariant carried through url assignment: the global url list has no
duplicates, every assigned node url is registered in it, and the assigned node
urls are pairwise distinct. -/
def urlsInv (m : Model) : Prop :=
  m.urls.Nodup ∧ (∀ u ∈ assignedUrls m.pages, u ∈ m.urls) ∧
    (assignedUrls m.pages).Nodup

instance (m : Model) : Decidable (urlsInv m) := by unfold urlsInv; infer_instance

/-- A record missing a required structural field (its object kind or its
parent descriptor, including the parent `type` subfield). -/
def rawMissingStructural (pg : RawPage) : Prop :=
  pg.object = none ∨ pg.parent = none ∨
    ∃ p, pg.parent = some p ∧ p.ptype = none

/-- Field bounds guaranteed for every datetime produced by `isoparse`; they
make the mixed-radix `dtVal` order the instants like component-wise datetime
comparison. -/
def DTValid (d : PyDateTime) : Prop :=
  1 ≤ d.month ∧ d.month ≤ 12 ∧ 1 ≤ d.day ∧ d.day ≤ 31 ∧
    d.hour ≤ 23 ∧ d.minute ≤ 59 ∧ d.second ≤ 59

/-! ## Concrete fixtures used by the claim theorems -/

/-- A raw map in which the child record precedes its parent record. -/
def rawChildBeforeParent : List (String × RawPage) :=
  [("child", { object := some "page",
               parent := some { ptype := some "page_id", page_id := some "par" } }),
   ("par", { object := some "page",
             parent := some { ptype := some "workspace", workspace := true } })]

/-- The same two records with the parent record first. -/
def rawParentBeforeChild : List (String × RawPage) :=
  [("par", { object := some "page",
             parent := some { ptype := some "workspace", workspace := true } }),
   ("child", { object := some "page",
               parent := some { ptype := some "page_id", page_id := some "par" } })]

/-- One record missing its required `object` field next to one well-formed
record. -/
def rawWithMalformed : List (String × RawPage) :=
  [("bad", { parent := some { ptype := some "workspace", workspace := true } }),
   ("good", { object := some "page",
              parent := some { ptype := some "workspace", workspace := true } })]

/-- A three-node parent cycle A → B → C → A. -/
def pagesCycle : List (String × NPage) :=
  [("A", { parent := some "B" }), ("B", { parent := some "C" }),
   ("C", { parent := some "A" })]

/-- Three sibling leaves sharing the title `"A"` under one root. -/
def modelSiblings : Model :=
  { pages :=
      [("root", { type := some "page", children := ["s1", "s2", "s3"] }),
       ("s1", { type := some "page", title := some "A", parent := some "root" }),
       ("s2", { type := some "page", title := some "A", parent := some "root" }),
       ("s3", { type := some "page", title := some "A", parent := some "root" })],
    root_page_id := "root" }

/-- One database entry whose md content, cover and files property all
reference the same remote URL. -/
def modelShared : Model :=
  { pages := [("p",
      { type := some "db_entry", url := some "d/index.html",
        files := ["http://h/img.png?sig=1"],
        md_content := some "see http://h/img.png?sig=1 here",
        cover := some "http://h/img.png?sig=1",
        properties_md := [("Attachment", "[📎](http://h/img.png?sig=1)")] })] }

/-- One page with two remote files, used to show that one failed download does
not stop the processing of the remaining assets. -/
def modelTwoFiles : Model :=
  { pages := [("p",
      { type := some "page", url := some "index.html",
        files := ["http://h/a.png", "http://h/b.png"],
        md_content := some "a http://h/a.png b http://h/b.png" })] }

/-- A network oracle failing only the first of the two files. -/
def fetchFailA : String → Fetch :=
  fun u => if u = "http://h/a.png" then Fetch.httpError else Fetch.ok

/-- A database with children dated `[none, "2024-01-02", "2023-05-01"]`. -/
def modelDbExample : Model :=
  { pages :=
      [("db", { type := some "database", children := ["a", "b", "c"] }),
       ("a", { type := some "db_entry" }),
       ("b", { type := some "db_entry", date := some "2024-01-02" }),
       ("c", { type := some "db_entry", date := some "2023-05-01" })] }

/-- The dated pages of the year-grouping example: `2023-01-01`, `2023-06-01`,
`2022-12-31` and one undated node. -/
def modelYearExample : Model :=
  { pages :=
      [("p1", { type := some "db_entry", date := some "2023-01-01" }),
       ("p2", { type := some "db_entry", date := some "2023-06-01" }),
       ("p3", { type := some "db_entry", date := some "2022-12-31" }),
       ("p4", { type := some "db_entry" })] }

/-! # Theorems

All definitions are above; everything from here on is proved properties.  -/

/-! ## `Except` monad reduction lemmas -/

theorem except_throw_eq {ε α : Type} (e : ε) :
    (throw e : Except ε α) = Except.error e := rfl

theorem except_error_bind {ε α β : Type} (e : ε) (f : α → Except ε β) :
    (Except.error e >>= f) = Except.error e := rfl

theorem except_ok_bind {ε α β : Type} (a : α) (f : α → Except ε β) :
    (Except.ok a >>= f) = f a := rfl

theorem except_pure_eq {ε α : Type} (a : α) :
    (pure a : Except ε α) = Except.ok a := rfl

/-! ## Decimal rendering lemmas -/

theorem digitChar_toNat {d : Nat} (h : d < 10) : (digitChar d).toNat = 48 + d := by
  interval_cases d <;> rfl

theorem decVal_append_digit (l : List Char) (c : Char) :
    decVal (l ++ [c]) = 10 * decVal l + (c.toNat - 48) := by
  simp [decVal, List.foldl_append]

theorem natDecAux_val : ∀ fuel n, n ≤ fuel → decVal (natDecAux fuel n) = n := by
  intro fuel
  induction fuel with
  | zero => intro n hn; interval_cases n; rfl
  | succ f ih =>
    intro n hn
    by_cases h0 : n = 0
    · subst h0; simp [natDecAux, decVal]
    · have hdiv : n / 10 ≤ f := by omega
      have hmod : n % 10 < 10 := Nat.mod_lt _ (by omega)
      simp only [natDecAux, h0, if_false]
      rw [decVal_append_digit, ih _ hdiv, digitChar_toNat hmod]
      omega

theorem natDec_val (n : Nat) : decVal (natDec n).data = n := by
  by_cases h : n = 0
  · subst h; rfl
  · simp only [natDec, h, if_false]
    exact natDecAux_val n n le_rfl

theorem natDec_inj {m n : Nat} (h : natDec m = natDec n) : m = n := by
  have := congrArg (fun s => decVal s.data) h
  simpa [natDec_val] using this

/-! ## Bounded search and `_unique_url` lemmas -/

theorem searchFrom_none {p : Nat → Bool} :
    ∀ fuel i, searchFrom p i fuel = none → ∀ j, i ≤ j → j < i + fuel → p j = false := by
  intro fuel
  induction fuel with
  | zero => intro i _ j h1 h2; omega
  | succ f ih =>
    intro i h j h1 h2
    simp only [searchFrom] at h
    by_cases hp : p i
    · simp [hp] at h
    · rcases Nat.eq_or_lt_of_le h1 with rfl | hlt
      · simpa using hp
      · simp only [hp, if_false] at h
        exact ih (i + 1) h j hlt (by omega)

theorem searchFrom_some {p : Nat → Bool} :
    ∀ fuel i k, searchFrom p i fuel = some k →
      p k = true ∧ i ≤ k ∧ ∀ j, i ≤ j → j < k → p j = false := by
  intro fuel
  induction fuel with
  | zero => intro i k h; simp [searchFrom] at h
  | succ f ih =>
    intro i k h
    simp only [searchFrom] at h
    by_cases hp : p i
    · simp only [hp, if_true, Option.some.injEq] at h
      subst h
      exact ⟨hp, le_rfl, fun j h1 h2 => by omega⟩
    · simp only [hp, if_false] at h
      obtain ⟨hk, hik, hmin⟩ := ih (i + 1) k h
      refine ⟨hk, by omega, fun j h1 h2 => ?_⟩
      rcases Nat.eq_or_lt_of_le h1 with rfl | hlt
      · simpa using hp
      · exact hmin j hlt h2

theorem str_append_left_cancel {a b c : String} (h : a ++ b = a ++ c) : b = c := by
  apply String.ext
  have := congrArg String.data h
  simp only [String.data_append] at this
  exact List.append_cancel_left this

theorem str_append_right_cancel {a b c : String} (h : a ++ c = b ++ c) : a = b := by
  apply String.ext
  have := congrArg String.data h
  simp only [String.data_append] at this
  exact List.append_cancel_right this

theorem suffixedUrl_inj (c : String) {i j : Nat}
    (h : suffixedUrl c i = suffixedUrl c j) : i = j := by
  unfold suffixedUrl joinRel at h
  by_cases hd : pathDir c = "."
  · simp only [hd, if_true] at h
    have h1 : natDec i ++ (stemExt (pathName c)).2
        = natDec j ++ (stemExt (pathName c)).2 := by
      have := str_append_left_cancel (a := (stemExt (pathName c)).1 ++ "_")
        (by simpa [String.append_assoc] using h)
      simpa [String.append_assoc] using this
    exact natDec_inj (str_append_right_cancel h1)
  · simp only [hd, if_false] at h
    have h0 : (pathDir c ++ "/" ++ (stemExt (pathName c)).1 ++ "_") ++
          (natDec i ++ (stemExt (pathName c)).2)
        = (pathDir c ++ "/" ++ (stemExt (pathName c)).1 ++ "_") ++
          (natDec j ++ (stemExt (pathName c)).2) := by
      simpa [String.append_assoc] using h
    exact natDec_inj (str_append_right_cancel (str_append_left_cancel h0))

theorem uniqueUrl_search_ne_none (c : String) (urls : List String) :
    searchFrom (fun i => !(decide (suffixedUrl c i ∈ urls))) 2 (urls.length + 1)
      ≠ none := by
  intro hnone
  have hall : ∀ j, 2 ≤ j → j < 2 + (urls.length + 1) → suffixedUrl c j ∈ urls := by
    intro j h1 h2
    have := searchFrom_none _ _ hnone j h1 h2
    simpa using this
  set l := (List.range (urls.length + 1)).map (fun k => suffixedUrl c (k + 2)) with hl
  have hnodup : l.Nodup := by
    refine List.Nodup.map ?_ (List.nodup_range _)
    intro a b hab
    have := suffixedUrl_inj c hab
    omega
  have hsub : l ⊆ urls := by
    intro x hx
    rw [hl, List.mem_map] at hx
    obtain ⟨k, hk, rfl⟩ := hx
    rw [List.mem_range] at hk
    exact hall (k + 2) (by omega) (by omega)
  have hlen : l.length ≤ urls.length := (List.subperm_of_subset hnodup hsub).length_le
  simp [hl] at hlen

/-- The result of `_unique_url` is never already taken; in particular the
suffix search of the source terminates. -/
theorem uniqueUrl_not_mem (c : String) (urls : List String) :
    uniqueUrl c urls ∉ urls := by
  unfold uniqueUrl
  by_cases hc : c ∈ urls
  · simp only [hc, if_true]
    rcases hs : searchFrom (fun i => !(decide (suffixedUrl c i ∈ urls))) 2
        (urls.length + 1) with _ | i
    · exact absurd hs (uniqueUrl_search_ne_none c urls)
    · obtain ⟨hp, _, _⟩ := searchFrom_some _ _ _ hs
      simpa using hp
  · simp [hc]

/-- When the candidate collides, `_unique_url` picks exactly the smallest free
suffix `i ≥ 2`, never reusing a taken one. -/
theorem uniqueUrl_minimal (c : String) (urls : List String) (hc : c ∈ urls) :
    ∃ i, 2 ≤ i ∧ uniqueUrl c urls = suffixedUrl c i ∧ suffixedUrl c i ∉ urls ∧
      ∀ j, 2 ≤ j → j < i → suffixedUrl c j ∈ urls := by
  unfold uniqueUrl
  simp only [hc, if_true]
  rcases hs : searchFrom (fun i => !(decide (suffixedUrl c i ∈ urls))) 2
      (urls.length + 1) with _ | i
  · exact absurd hs (uniqueUrl_search_ne_none c urls)
  · obtain ⟨hp, hge, hmin⟩ := searchFrom_some _ _ _ hs
    refine ⟨i, hge, rfl, by simpa using hp, fun j h1 h2 => ?_⟩
    have := hmin j h1 h2
    simpa using this


/-! ## `clean_url_string` lemmas (claim C5) -/

theorem dropWhile_eq_self_of (p : Char → Bool) (l : List Char)
    (h : ∀ c ∈ l, p c = false) : l.dropWhile p = l := by
  cases l with
  | nil => rfl
  | cons c rest =>
    simp [List.dropWhile_cons, h c (List.mem_cons_self c rest)]

theorem stripBy_eq_self {p : Char → Bool} {l : List Char}
    (h : ∀ c ∈ l, p c = false) : stripBy p l = l := by
  unfold stripBy
  rw [dropWhile_eq_self_of p l h,
    dropWhile_eq_self_of p l.reverse (fun c hc => h c (List.mem_reverse.mp hc)),
    List.reverse_reverse]

theorem mem_stripBy {p : Char → Bool} {l : List Char} {c : Char}
    (h : c ∈ stripBy p l) : c ∈ l := by
  unfold stripBy at h
  rw [List.mem_reverse] at h
  have h1 := (List.dropWhile_sublist _).subset h
  rw [List.mem_reverse] at h1
  exact (List.dropWhile_sublist _).subset h1

theorem replaceChar_eq_self {a b : Char} {l : List Char}
    (h : ∀ c ∈ l, c ≠ a) : replaceChar a b l = l := by
  induction l with
  | nil => rfl
  | cons c rest ih =>
    simp only [replaceChar, List.map_cons]
    rw [if_neg (h c (List.mem_cons_self c rest))]
    have := ih (fun x hx => h x (List.mem_cons_of_mem c hx))
    simp only [replaceChar] at this
    rw [this]

/-- A character left untouched by every stage of the sanitizer. -/
def keepChar (c : Char) : Prop :=
  c ≠ '$' ∧ c ≠ '\\' ∧ c ≠ ':' ∧ c ≠ ' ' ∧ c ≠ '.' ∧
    forbiddenChar c = false ∧ pyWhitespace c = false

instance : DecidablePred keepChar := fun c => by unfold keepChar; infer_instance

/-- Every character produced by the sanitizing pipeline is safe. -/
theorem sanitizeChars_clean (w : List Char) :
    ∀ c ∈ sanitizeChars w, forbiddenChar c = false := by
  intro c hc
  have h4 := mem_stripBy hc
  rw [List.mem_map] at h4
  obtain ⟨d, _, hd⟩ := h4
  by_cases hfd : forbiddenChar d
  · rw [if_pos hfd] at hd
    subst hd; decide
  · rw [if_neg hfd] at hd
    subst hd
    exact Bool.not_eq_true _ ▸ hfd

/-- The sanitizing pipeline fixes strings of kept characters. -/
theorem sanitizeChars_fixed {w : List Char} (hw : ∀ c ∈ w, keepChar c) :
    sanitizeChars w = w := by
  unfold sanitizeChars
  rw [replaceChar_eq_self (fun c hc => (hw c hc).1),
    replaceChar_eq_self (fun c hc => (hw c hc).2.1),
    replaceChar_eq_self (fun c hc => (hw c hc).2.2.1),
    replaceChar_eq_self (fun c hc => (hw c hc).2.2.2.1)]
  have h4 : w.map (fun c => if forbiddenChar c then '_' else c) = w := by
    have hcong : ∀ c ∈ w, (fun c => if forbiddenChar c then '_' else c) c = c := by
      intro c hc
      simp [(hw c hc).2.2.2.2.2.1]
    calc w.map (fun c => if forbiddenChar c then '_' else c)
        = w.map id := List.map_congr_left hcong
      _ = w := List.map_id w
  rw [h4]
  exact stripBy_eq_self (fun c hc => by
    have h5 := hw c hc
    simp only [keepChar] at h5
    simp [h5.2.2.2.1, h5.2.2.2.2.1])

/-- Any slug returned by `clean_url_string` is free of the forbidden
characters, provided the fallback itself is (the `untitled_` fallbacks are). -/
theorem cleanUrlString_clean (value : Option String) (fallback : String)
    (hf : ∀ c ∈ fallback.data, forbiddenChar c = false) :
    ∀ c ∈ (cleanUrlString value fallback).data, forbiddenChar c = false := by
  intro c hc
  unfold cleanUrlString at hc
  by_cases h5 : sanitizeChars (if pyStrip (value.getD fallback) = "" then fallback
      else pyStrip (value.getD fallback)).data = []
  · rw [if_pos h5] at hc
    exact hf c hc
  · rw [if_neg h5] at hc
    exact sanitizeChars_clean _ c hc

/-- On a `None`, empty or whitespace-only title the slug is exactly the
fallback, provided the fallback is invariant under sanitization (true of every
`untitled_<id prefix>` fallback generated by the source). -/
theorem cleanUrlString_fallback (value : Option String) (f : String)
    (hf : ∀ c ∈ f.data, keepChar c)
    (hv : value = none ∨ ∃ t, value = some t ∧ pyStrip t = "") :
    cleanUrlString value f = f := by
  have hstrip : pyStrip f = f := by
    unfold pyStrip
    rw [stripBy_eq_self (fun c hc => (hf c hc).2.2.2.2.2.2)]
  simp only [cleanUrlString]
  have hv2 : (if pyStrip (value.getD f) = "" then f
      else pyStrip (value.getD f)) = f := by
    rcases hv with rfl | ⟨t, rfl, ht⟩
    · simp only [Option.getD, hstrip]
      split <;> rfl
    · simp [ht]
  rw [hv2, sanitizeChars_fixed hf]
  by_cases hfd : f.data = []
  · rw [if_pos hfd]
  · rw [if_neg hfd]

/-- **C5** counterexample: a title consisting only of the forbidden character
`/` does not fall back to `untitled_<id prefix>` as the claim states; the
forbidden characters are replaced by underscores, giving the slug `"___"`. -/
theorem claimC5_counterexample :
    cleanUrlString (some "///") "untitled_deadbeef" = "___" ∧
    cleanUrlString (some "///") "untitled_deadbeef" ≠ "untitled_deadbeef" := by
  decide

/-- **C5** (amended): for every title, the slug produced by `clean_url_string`
contains none of `/ \ : * ? " < > |` and no control characters 0x00-0x1F,
provided the fallback is itself free of them (true of the `untitled_` fallback
built at lines 272-273); for a null, empty, or whitespace-only title the slug
is exactly the fallback, and the `untitled_<first 8 id characters>` fallback is
never empty.  Contrary to the original claim, a title made of other forbidden
characters (for example `"///"`) is sanitized to underscores and does not fall
back. -/
theorem claimC5_theorem :
    (∀ value fallback, (∀ c ∈ fallback.data, forbiddenChar c = false) →
      ∀ c ∈ (cleanUrlString value fallback).data, forbiddenChar c = false) ∧
    (∀ value f, (∀ c ∈ f.data, keepChar c) →
      (value = none ∨ ∃ t, value = some t ∧ pyStrip t = "") →
      cleanUrlString value f = f) ∧
    (∀ pid : String, ("untitled_" ++ pid.take 8) ≠ "") ∧
    cleanUrlString (some "///") "untitled_deadbeef" = "___" := by
  refine ⟨cleanUrlString_clean, cleanUrlString_fallback, ?_, by decide⟩
  intro pid h
  have hd := congrArg String.length h
  rw [String.length_append] at hd
  have h9 : "untitled_".length = 9 := rfl
  have h0 : "".length = 0 := rfl
  omega

/-! ## Claim C1: global url uniqueness -/

theorem assignedUrls_cons (k : String) (p : NPage) (rest : List (String × NPage)) :
    assignedUrls ((k, p) :: rest) =
      match p.url with
      | some u => u :: assignedUrls rest
      | none => assignedUrls rest := by
  simp only [assignedUrls, List.filterMap_cons]
  cases p.url <;> rfl

/-- Setting one node url to a fresh value keeps the assigned urls pairwise
distinct and adds at most that value. -/
theorem assignedUrls_setUrl (pid u : String) :
    ∀ pages : List (String × NPage),
    (assignedUrls pages).Nodup → u ∉ assignedUrls pages →
    (∀ x ∈ assignedUrls (dictUpdate pid (fun p => { p with url := some u }) pages),
        x = u ∨ x ∈ assignedUrls pages) ∧
    (assignedUrls (dictUpdate pid (fun p => { p with url := some u }) pages)).Nodup := by
  intro pages
  induction pages with
  | nil =>
    intro _ _
    constructor
    · intro x hx
      simp [assignedUrls, dictUpdate] at hx
    · simp [assignedUrls, dictUpdate]
  | cons kv rest ih =>
    obtain ⟨k, p⟩ := kv
    intro hnd hu
    have hnd_rest : (assignedUrls rest).Nodup := by
      rw [assignedUrls_cons] at hnd
      cases hp : p.url with
      | some u₀ => rw [hp] at hnd; exact hnd.of_cons
      | none => rw [hp] at hnd; exact hnd
    have hu_rest : u ∉ assignedUrls rest := by
      intro hx
      apply hu
      rw [assignedUrls_cons]
      cases hp : p.url with
      | some u₀ => exact List.mem_cons_of_mem _ hx
      | none => exact hx
    by_cases hk : k = pid
    · have hupd : dictUpdate pid (fun p => { p with url := some u }) ((k, p) :: rest)
          = (k, { p with url := some u }) :: rest := by
        simp [dictUpdate, hk]
      rw [hupd, assignedUrls_cons]
      constructor
      · intro x hx
        simp only [List.mem_cons] at hx
        rcases hx with rfl | hx
        · exact Or.inl rfl
        · refine Or.inr ?_
          rw [assignedUrls_cons]
          cases hp : p.url with
          | some u₀ => exact List.mem_cons_of_mem _ hx
          | none => exact hx
      · exact List.Nodup.cons hu_rest hnd_rest
    · have hupd : dictUpdate pid (fun p => { p with url := some u }) ((k, p) :: rest)
          = (k, p) :: dictUpdate pid (fun p => { p with url := some u }) rest := by
        simp [dictUpdate, hk]
      obtain ⟨ih_sub, ih_nd⟩ := ih hnd_rest hu_rest
      rw [hupd, assignedUrls_cons]
      cases hp : p.url with
      | some u₀ =>
        have hu₀ : u₀ ∉ assignedUrls rest := by
          rw [assignedUrls_cons, hp] at hnd
          exact (List.nodup_cons.mp hnd).1
        have hu₀u : u₀ ≠ u := by
          intro heq
          apply hu
          rw [assignedUrls_cons, hp, heq]
          exact List.mem_cons_self _ _
        constructor
        · intro x hx
          simp only [List.mem_cons] at hx
          rcases hx with rfl | hx
          · refine Or.inr ?_
            rw [assignedUrls_cons, hp]
            exact List.mem_cons_self _ _
          · rcases ih_sub x hx with rfl | hx₂
            · exact Or.inl rfl
            · refine Or.inr ?_
              rw [assignedUrls_cons, hp]
              exact List.mem_cons_of_mem _ hx₂
        · refine List.Nodup.cons ?_ ih_nd
          intro hx
          rcases ih_sub u₀ hx with heq | hx₂
          · exact hu₀u heq
          · exact hu₀ hx₂
      | none =>
        constructor
        · intro x hx
          rcases ih_sub x hx with rfl | hx₂
          · exact Or.inl rfl
          · refine Or.inr ?_
            rw [assignedUrls_cons, hp]
            exact hx₂
        · exact ih_nd

/-- One url assignment preserves the uniqueness invariant. -/
theorem urlsInv_assignUrl (pid url : String) (m : Model) (hinv : urlsInv m) :
    urlsInv (assignUrl pid url m) := by
  obtain ⟨hnd, hsub, hand⟩ := hinv
  have hfree : uniqueUrl url m.urls ∉ m.urls := uniqueUrl_not_mem url m.urls
  have hfreeA : uniqueUrl url m.urls ∉ assignedUrls m.pages :=
    fun hx => hfree (hsub _ hx)
  obtain ⟨hsub₂, hnd₂⟩ :=
    assignedUrls_setUrl pid (uniqueUrl url m.urls) m.pages hand hfreeA
  refine ⟨?_, ?_, hnd₂⟩
  · simp only [assignUrl]
    rw [List.nodup_append]
    refine ⟨hnd, List.nodup_singleton _, ?_⟩
    intro x hx hx₂
    rw [List.mem_singleton] at hx₂
    subst hx₂
    exact hfree hx
  · simp only [assignUrl]
    intro x hx
    rcases hsub₂ x hx with rfl | hx₂
    · simp
    · exact List.mem_append_left _ (hsub x hx₂)

/-- The uniqueness invariant is preserved by the whole depth-first
assignment. -/
theorem generateUrlsList_inv :
    ∀ (fuel : Nat) (stack : List String) (m m' : Model),
    urlsInv m → generateUrlsList fuel stack m = Except.ok m' → urlsInv m' := by
  intro fuel
  induction fuel with
  | zero =>
    intro stack m m' _ h
    simp [generateUrlsList, except_throw_eq] at h
  | succ f ih =>
    intro stack m m' hinv h
    cases stack with
    | nil =>
      simp only [generateUrlsList, except_pure_eq, Except.ok.injEq] at h
      subst h
      exact hinv
    | cons pid rest =>
      simp only [generateUrlsList] at h
      cases hc : candidateUrl pid m with
      | error e =>
        rw [hc, except_error_bind] at h
        cases h
      | ok url =>
        rw [hc, except_ok_bind] at h
        by_cases hmem : dictMem pid m.pages = true
        · rw [if_pos hmem] at h
          exact ih _ _ _ (urlsInv_assignUrl pid url m hinv) h
        · rw [if_neg hmem] at h
          rw [except_throw_eq] at h
          cases h

/-- **C1**: after url assignment completes over the whole tree, the assigned
node urls are pairwise distinct (given the invariant — trivially true of the
fresh model with an empty url list — holds initially); a colliding candidate
receives the smallest free numeric suffix `_i`, `i ≥ 2`, with every smaller
suffix already taken, and that search terminates with a value outside the
taken set; three sibling leaves sharing one title receive the three distinct
urls `A.html`, `A_2.html`, `A_3.html` under the root `index.html`. -/
theorem claimC1_theorem :
    (∀ (fuel : Nat) (stack : List String) (m m' : Model),
      urlsInv m → generateUrlsList fuel stack m = Except.ok m' →
      (assignedUrls m'.pages).Nodup) ∧
    (∀ c urls, uniqueUrl c urls ∉ urls) ∧
    (∀ c urls, c ∈ urls → ∃ i, 2 ≤ i ∧ uniqueUrl c urls = suffixedUrl c i ∧
      suffixedUrl c i ∉ urls ∧ ∀ j, 2 ≤ j → j < i → suffixedUrl c j ∈ urls) ∧
    (generateUrls 10 "root" modelSiblings).map (fun m => assignedUrls m.pages) =
      Except.ok ["index.html", "A.html", "A_2.html", "A_3.html"] ∧
    (["index.html", "A.html", "A_2.html", "A_3.html"] : List String).Nodup := by
  refine ⟨fun fuel stack m m' hinv h =>
      (generateUrlsList_inv fuel stack m m' hinv h).2.2,
    uniqueUrl_not_mem, uniqueUrl_minimal, by decide, by decide⟩

/-- **C1** witness: on the three-sibling fixture the assignment completes and
the theorem yields pairwise distinct urls. -/
theorem claimC1_witness :
    ∃ m', generateUrlsList 10 ["root"] modelSiblings = Except.ok m' ∧
      (assignedUrls m'.pages).Nodup := by
  have hisok : (generateUrlsList 10 ["root"] modelSiblings).isOk = true := by decide
  cases hok : generateUrlsList 10 ["root"] modelSiblings with
  | error e => rw [hok] at hisok; simp [Except.isOk, Except.toBool] at hisok
  | ok m' =>
    exact ⟨m', rfl,
      claimC1_theorem.1 10 ["root"] modelSiblings m' (by decide) hok⟩

/-! ## Claims C2 and C7: the asset rewrite pass -/

theorem dictGet_dictUpdate {κ α : Type} [DecidableEq κ] (k : κ) (f : α → α) :
    ∀ d : List (κ × α), dictGet k (dictUpdate k f d) = (dictGet k d).map f := by
  intro d
  induction d with
  | nil => rfl
  | cons kv rest ih =>
    obtain ⟨k₁, v⟩ := kv
    by_cases hk : k₁ = k
    · simp [dictUpdate, dictGet, hk]
    · simp [dictUpdate, dictGet, hk, ih]

/-- The field equations of the per-page rewrite: every reference field is
rewritten through the same path `r`. -/
theorem rewritePage_fields (iFile : Nat) (fileUrl r : String) (page : NPage) :
    (rewritePage iFile fileUrl r page).files = page.files.set iFile r ∧
    (rewritePage iFile fileUrl r page).md_content =
      some (pyReplace (page.md_content.getD "") fileUrl r) ∧
    (rewritePage iFile fileUrl r page).icon =
      (if page.icon = some fileUrl then some r else page.icon) ∧
    (rewritePage iFile fileUrl r page).cover =
      (if page.cover = some fileUrl then some r else page.cover) ∧
    (rewritePage iFile fileUrl r page).properties_md =
      (if page.type = some "db_entry" then
          page.properties_md.map (fun kv =>
            if strContains kv.2 fileUrl then (kv.1, pyReplace kv.2 fileUrl r)
            else kv)
        else page.properties_md) := by
  by_cases hdb : page.type = some "db_entry" <;> simp [rewritePage, hdb]

/-- When the target already exists on disk the source skips the download and
still performs the rewrite. -/
theorem processFile_eq_of_mem (fetch : String → Fetch) (pid pageDirRel : String)
    (st : DLState) (iFile : Nat) (fileUrl : String)
    (hmem : targetRel st.fs pageDirRel fileUrl ∈ st.fs) :
    processFile fetch pid pageDirRel st iFile fileUrl =
      Except.ok { st with
        pages := dictUpdate pid
          (rewritePage iFile fileUrl (targetRel st.fs pageDirRel fileUrl))
          st.pages } := by
  simp only [targetRel] at hmem
  simp [processFile, targetRel, hmem, except_pure_eq, except_ok_bind]

/-- When the fetch succeeds the file is recorded on disk and the rewrite is
performed. -/
theorem processFile_eq_of_ok (fetch : String → Fetch) (pid pageDirRel : String)
    (st : DLState) (iFile : Nat) (fileUrl : String)
    (hmem : targetRel st.fs pageDirRel fileUrl ∉ st.fs)
    (hok : fetch fileUrl = Fetch.ok) :
    processFile fetch pid pageDirRel st iFile fileUrl =
      Except.ok { st with
        fs := st.fs ++ [targetRel st.fs pageDirRel fileUrl],
        pages := dictUpdate pid
          (rewritePage iFile fileUrl (targetRel st.fs pageDirRel fileUrl))
          st.pages } := by
  simp only [targetRel] at hmem
  simp [processFile, targetRel, hmem, hok, except_pure_eq, except_ok_bind]

/-- On a successful localization (the target already exists, or the fetch
succeeds) every reference field of the page is rewritten through one and the
same relative path. -/
theorem processFile_localized (fetch : String → Fetch) (pid pageDirRel : String)
    (st : DLState) (iFile : Nat) (fileUrl r : String) (page : NPage)
    (hpage : dictGet pid st.pages = some page)
    (hr : r = targetRel st.fs pageDirRel fileUrl)
    (hsuc : r ∈ st.fs ∨ fetch fileUrl = Fetch.ok) :
    ∃ st', processFile fetch pid pageDirRel st iFile fileUrl = Except.ok st' ∧
      ∃ page', dictGet pid st'.pages = some page' ∧
        page'.files = page.files.set iFile r ∧
        page'.md_content = some (pyReplace (page.md_content.getD "") fileUrl r) ∧
        page'.icon = (if page.icon = some fileUrl then some r else page.icon) ∧
        page'.cover = (if page.cover = some fileUrl then some r else page.cover) ∧
        page'.properties_md = (if page.type = some "db_entry" then
            page.properties_md.map (fun kv =>
              if strContains kv.2 fileUrl then (kv.1, pyReplace kv.2 fileUrl r)
              else kv)
          else page.properties_md) := by
  subst hr
  have hrest : ∃ page', dictGet pid (dictUpdate pid
      (rewritePage iFile fileUrl (targetRel st.fs pageDirRel fileUrl)) st.pages)
        = some page' ∧
      page'.files = page.files.set iFile (targetRel st.fs pageDirRel fileUrl) ∧
      page'.md_content = some (pyReplace (page.md_content.getD "") fileUrl
        (targetRel st.fs pageDirRel fileUrl)) ∧
      page'.icon = (if page.icon = some fileUrl then
        some (targetRel st.fs pageDirRel fileUrl) else page.icon) ∧
      page'.cover = (if page.cover = some fileUrl then
        some (targetRel st.fs pageDirRel fileUrl) else page.cover) ∧
      page'.properties_md = (if page.type = some "db_entry" then
          page.properties_md.map (fun kv =>
            if strContains kv.2 fileUrl then (kv.1, pyReplace kv.2 fileUrl
              (targetRel st.fs pageDirRel fileUrl))
            else kv)
        else page.properties_md) := by
    rw [dictGet_dictUpdate, hpage]
    exact ⟨_, rfl, rewritePage_fields _ _ _ _⟩
  by_cases hmem : targetRel st.fs pageDirRel fileUrl ∈ st.fs
  · exact ⟨_, processFile_eq_of_mem fetch pid pageDirRel st iFile fileUrl hmem,
      hrest⟩
  · rcases hsuc with hm | hok
    · exact absurd hm hmem
    · exact ⟨_, processFile_eq_of_ok fetch pid pageDirRel st iFile fileUrl
        hmem hok, hrest⟩

/-- **C2**: a successfully localized file URL is rewritten through one single
relative path in every reference field of the node — the files entry, the
md content (substring replace), icon and cover (exact match), and every
properties_md value (substring replace); concretely, one URL referenced from
md content, cover and a files property of the same node resolves to the
identical local path `d/img.png` in all places after the pass. -/
theorem claimC2_theorem :
    (∀ (fetch : String → Fetch) (pid pageDirRel : String) (st : DLState)
      (iFile : Nat) (fileUrl r : String) (page : NPage),
      dictGet pid st.pages = some page →
      r = targetRel st.fs pageDirRel fileUrl →
      (r ∈ st.fs ∨ fetch fileUrl = Fetch.ok) →
      ∃ st', processFile fetch pid pageDirRel st iFile fileUrl = Except.ok st' ∧
        ∃ page', dictGet pid st'.pages = some page' ∧
          page'.files = page.files.set iFile r ∧
          page'.md_content = some (pyReplace (page.md_content.getD "") fileUrl r) ∧
          page'.icon = (if page.icon = some fileUrl then some r else page.icon) ∧
          page'.cover = (if page.cover = some fileUrl then some r else page.cover) ∧
          page'.properties_md = (if page.type = some "db_entry" then
              page.properties_md.map (fun kv =>
                if strContains kv.2 fileUrl then (kv.1, pyReplace kv.2 fileUrl r)
                else kv)
            else page.properties_md)) ∧
    (downloadAndReplacePaths (fun _ => Fetch.ok) [] modelShared).map (fun st =>
        st.pages.map (fun kv => kv.2.files)) = Except.ok [["d/img.png"]] ∧
    (downloadAndReplacePaths (fun _ => Fetch.ok) [] modelShared).map (fun st =>
        st.pages.map (fun kv => kv.2.md_content)) =
      Except.ok [some "see d/img.png here"] ∧
    (downloadAndReplacePaths (fun _ => Fetch.ok) [] modelShared).map (fun st =>
        st.pages.map (fun kv => kv.2.cover)) = Except.ok [some "d/img.png"] ∧
    (downloadAndReplacePaths (fun _ => Fetch.ok) [] modelShared).map (fun st =>
        st.pages.map (fun kv => kv.2.properties_md)) =
      Except.ok [[("Attachment", "[📎](d/img.png)")]] :=
  ⟨processFile_localized, by decide, by decide, by decide, by decide⟩

/-- **C2** witness: the rewrite theorem applied to the shared-URL fixture. -/
theorem claimC2_witness :
    ∃ st', processFile (fun _ => Fetch.ok) "p" "d"
        { pages := modelShared.pages } 0 "http://h/img.png?sig=1" =
        Except.ok st' ∧
      ∃ page', dictGet "p" st'.pages = some page' ∧
        page'.files = ["d/img.png"] ∧
        page'.md_content = some "see d/img.png here" ∧
        page'.icon = none ∧
        page'.cover = some "d/img.png" ∧
        page'.properties_md = [("Attachment", "[📎](d/img.png)")] := by
  have h := claimC2_theorem.1 (fun _ => Fetch.ok) "p" "d"
    { pages := modelShared.pages } 0 "http://h/img.png?sig=1" "d/img.png"
    ({ type := some "db_entry", url := some "d/index.html",
       files := ["http://h/img.png?sig=1"],
       md_content := some "see http://h/img.png?sig=1 here",
       cover := some "http://h/img.png?sig=1",
       properties_md := [("Attachment", "[📎](http://h/img.png?sig=1)")] })
    (by decide) (by decide) (Or.inr rfl)
  obtain ⟨st', hst, page', hpage, hfiles, hmd, hicon, hcover, hprops⟩ := h
  refine ⟨st', hst, page', hpage, ?_, ?_, ?_, ?_, ?_⟩
  · rw [hfiles]; decide
  · rw [hmd]; decide
  · rw [hicon]; decide
  · rw [hcover]; decide
  · rw [hprops]; decide

/-- **C7** counterexample: a transport failure (any exception other than
`HTTPError` or `ValueError`, such as `URLError`) is not caught by the source —
the whole download pass, and with it the export, aborts instead of skipping
the asset and continuing. -/
theorem claimC7_counterexample :
    downloadAndReplacePaths (fun _ => Fetch.otherError) [] modelShared =
      Except.error (Err.urlError "http://h/img.png?sig=1") := by
  decide

/-- **C7** (amended): a fetch failure raised as an HTTP error is logged and
the file skipped, with the pages dict and the disk state left untouched, so
every reference (files entry, md content, icon, cover, properties_md) still
holds the original remote URL; a `ValueError` is skipped silently with the
state likewise untouched; processing then continues with the remaining assets
(concretely: with the first of two files failing, the second is still
localized and the pass succeeds).  But any other transport exception
propagates and aborts the pass. -/
theorem claimC7_theorem :
    (∀ (fetch : String → Fetch) (pid pageDirRel : String) (st : DLState)
      (iFile : Nat) (fileUrl : String),
      targetRel st.fs pageDirRel fileUrl ∉ st.fs →
      fetch fileUrl = Fetch.httpError →
      processFile fetch pid pageDirRel st iFile fileUrl =
        Except.ok { st with log := st.log ++
          ["Cannot download " ++ uniqueFilePathName st.fs pageDirRel
            (deriveFileName fileUrl) ++ " from link " ++ fileUrl ++ "."] }) ∧
    (∀ (fetch : String → Fetch) (pid pageDirRel : String) (st : DLState)
      (iFile : Nat) (fileUrl : String),
      targetRel st.fs pageDirRel fileUrl ∉ st.fs →
      fetch fileUrl = Fetch.valueError →
      processFile fetch pid pageDirRel st iFile fileUrl = Except.ok st) ∧
    (∀ (fetch : String → Fetch) (pid pageDirRel : String) (st : DLState)
      (iFile : Nat) (fileUrl : String),
      targetRel st.fs pageDirRel fileUrl ∉ st.fs →
      fetch fileUrl = Fetch.otherError →
      processFile fetch pid pageDirRel st iFile fileUrl =
        Except.error (Err.urlError fileUrl)) ∧
    (downloadAndReplacePaths fetchFailA [] modelTwoFiles).map (fun st => st.log) =
      Except.ok ["Cannot download a.png from link http://h/a.png."] ∧
    (downloadAndReplacePaths fetchFailA [] modelTwoFiles).map (fun st =>
        st.pages.map (fun kv => kv.2.files)) =
      Except.ok [["http://h/a.png", "b.png"]] ∧
    (downloadAndReplacePaths fetchFailA [] modelTwoFiles).map (fun st =>
        st.pages.map (fun kv => kv.2.md_content)) =
      Except.ok [some "a http://h/a.png b b.png"] := by
  refine ⟨?_, ?_, ?_, by decide, by decide, by decide⟩
  · intro fetch pid pageDirRel st iFile fileUrl hmem hfetch
    simp only [targetRel] at hmem
    simp [processFile, hmem, hfetch, except_pure_eq, except_ok_bind]
  · intro fetch pid pageDirRel st iFile fileUrl hmem hfetch
    simp only [targetRel] at hmem
    simp [processFile, hmem, hfetch, except_pure_eq, except_ok_bind]
  · intro fetch pid pageDirRel st iFile fileUrl hmem hfetch
    simp only [targetRel] at hmem
    simp [processFile, hmem, hfetch, except_throw_eq, except_error_bind,
      except_pure_eq, except_ok_bind]

/-- **C7** witness: the skip branches applied at a concrete state. -/
theorem claimC7_witness :
    processFile (fun _ => Fetch.httpError) "p" "." { pages := modelTwoFiles.pages }
        0 "http://h/a.png" =
      Except.ok { pages := modelTwoFiles.pages,
                  log := ["Cannot download a.png from link http://h/a.png."] } ∧
    processFile (fun _ => Fetch.valueError) "p" "." { pages := modelTwoFiles.pages }
        0 "http://h/a.png" =
      Except.ok { pages := modelTwoFiles.pages } := by
  constructor
  · have h := claimC7_theorem.1 (fun _ => Fetch.httpError) "p" "."
      { pages := modelTwoFiles.pages } 0 "http://h/a.png" (by decide) rfl
    rw [h]; decide
  · have h := claimC7_theorem.2.1 (fun _ => Fetch.valueError) "p" "."
      { pages := modelTwoFiles.pages } 0 "http://h/a.png" (by decide) rfl
    rw [h]

/-! ## Claim C3: children registration across visitation orders -/

/-- **C3** (code bug): when a child record precedes its parent record in the
raw map, the child registers itself in a placeholder parent record, but the
unconditional reset at line 93 destroys that placeholder when the parent
itself is visited — the parent ends with an empty children list, although the
very same records in parent-first order produce `["child"]`.  This defeats the
placeholder mechanism whose purpose the comment at line 149 documents. -/
theorem claimC3_theorem :
    (parseHeaders rawChildBeforeParent).map
        (fun d => (dictGet "par" d).map (fun p => p.children)) =
      Except.ok (some []) ∧
    (parseHeaders rawParentBeforeChild).map
        (fun d => (dictGet "par" d).map (fun p => p.children)) =
      Except.ok (some ["child"]) := by
  decide

/-! ## Claim C4: cyclic parent graphs -/

theorem familyLine_cycle_none : ∀ fuel pid line,
    (pid = "A" ∨ pid = "B" ∨ pid = "C") →
    parseFamilyLineFuel pagesCycle fuel pid line = none := by
  intro fuel
  induction fuel with
  | zero => intro pid line _; rfl
  | succ f ih =>
    intro pid line hpid
    rcases hpid with rfl | rfl | rfl
    · exact ih "B" ("B" :: line) (Or.inr (Or.inl rfl))
    · exact ih "C" ("C" :: line) (Or.inr (Or.inr rfl))
    · exact ih "A" ("A" :: line) (Or.inl rfl)

/-- **C4** counterexample: on the 3-node parent cycle A → B → C → A the
ancestor walk never completes — there is no recursion budget at which
`parse_family_line` returns; the source performs no cycle detection and raises
no structural cycle error. -/
theorem claimC4_counterexample :
    ¬ ∃ fuel, (parseFamilyLineFuel pagesCycle fuel "A" []).isSome = true := by
  rintro ⟨fuel, h⟩
  rw [familyLine_cycle_none fuel "A" [] (Or.inl rfl)] at h
  simp at h

/-- **C4** (amended): on a cyclic parent graph the ancestor-chain construction
does not terminate and raises no structural cycle error:  for every recursion
budget the walk is still incomplete, and `parse_family_lines` aborts the whole
export with the interpreter recursion-limit error — not a cycle error — at
every budget. -/
theorem claimC4_theorem : ∀ fuel,
    parseFamilyLineFuel pagesCycle fuel "A" [] = none ∧
    parseFamilyLines fuel { pages := pagesCycle } =
      Except.error Err.recursionError := by
  intro fuel
  refine ⟨familyLine_cycle_none fuel "A" [] (Or.inl rfl), ?_⟩
  have hA := familyLine_cycle_none fuel "A" [] (Or.inl rfl)
  simp only [pagesCycle] at hA
  simp [parseFamilyLines, pagesCycle, List.mapM, List.mapM.loop, hA,
    except_throw_eq, except_error_bind]

/-! ## Claim C6: malformed records -/

theorem parseHeadersStep_malformed (d : List (String × NPage)) (pid : String)
    (pg : RawPage) (hbad : rawMissingStructural pg) :
    ∃ e, parseHeadersStep d pid pg = Except.error e := by
  rcases hbad with h | h | ⟨p, hp, hpt⟩
  · exact ⟨Err.keyError "object", by
      simp [parseHeadersStep, h, except_throw_eq, except_error_bind]⟩
  · cases hobj : pg.object with
    | none => exact ⟨Err.keyError "object", by
        simp [parseHeadersStep, hobj, except_throw_eq, except_error_bind]⟩
    | some o => exact ⟨Err.keyError "parent", by
        simp [parseHeadersStep, hobj, h, except_throw_eq, except_error_bind,
          except_ok_bind, except_pure_eq]⟩
  · cases hobj : pg.object with
    | none => exact ⟨Err.keyError "object", by
        simp [parseHeadersStep, hobj, except_throw_eq, except_error_bind]⟩
    | some o =>
      exact ⟨Err.keyError "parent.type", by
        simp [parseHeadersStep, hobj, hp, hpt, except_throw_eq, except_error_bind,
          except_ok_bind, except_pure_eq]⟩

theorem parseHeaders_malformed :
    ∀ (raw : List (String × RawPage)) (d : List (String × NPage)),
    (∃ kv ∈ raw, rawMissingStructural kv.2) →
    ∃ e, raw.foldlM (fun d kv => parseHeadersStep d kv.1 kv.2) d =
      Except.error e := by
  intro raw
  induction raw with
  | nil =>
    intro d h
    rcases h with ⟨kv, hmem, _⟩
    simp at hmem
  | cons kv rest ih =>
    intro d h
    rcases h with ⟨kv₂, hmem, hbad⟩
    simp only [List.foldlM_cons]
    rcases List.mem_cons.mp hmem with rfl | hmem₂
    · obtain ⟨e, he⟩ := parseHeadersStep_malformed d kv₂.1 kv₂.2 hbad
      exact ⟨e, by rw [he, except_error_bind]⟩
    · cases hstep : parseHeadersStep d kv.1 kv.2 with
      | error e => exact ⟨e, rfl⟩
      | ok d₂ =>
        obtain ⟨e, he⟩ := ih d₂ ⟨kv₂, hmem₂, hbad⟩
        exact ⟨e, he⟩

/-- **C6** counterexample: a raw map holding one record without an `object`
field next to one well-formed record makes `parse_headers` raise, producing no
typed records at all — the well-formed record alone would have parsed. -/
theorem claimC6_counterexample :
    parseHeaders rawWithMalformed = Except.error (Err.keyError "object") ∧
    (parseHeaders rawWithMalformed.tail).isOk = true := by
  decide

/-- **C6** (amended): a record missing a required structural field does not
fail only that node — the uncaught KeyError aborts the whole header
classification (hence the whole export); no typed record of any other record
survives. -/
theorem claimC6_theorem :
    ∀ raw : List (String × RawPage),
    (∃ kv ∈ raw, rawMissingStructural kv.2) →
    ∃ e, parseHeaders raw = Except.error e :=
  fun raw h => parseHeaders_malformed raw [] h

/-- **C6** witness. -/
theorem claimC6_witness : ∃ e, parseHeaders rawWithMalformed = Except.error e :=
  claimC6_theorem rawWithMalformed
    ⟨("bad", { parent := some { ptype := some "workspace", workspace := true } }),
     by decide, Or.inl rfl⟩

/-! ## Claim C8: database child ordering -/

theorem charListLe_total : ∀ s t, charListLe s t = true ∨ charListLe t s = true := by
  intro s
  induction s with
  | nil => intro t; exact Or.inl rfl
  | cons a as ih =>
    intro t
    cases t with
    | nil => exact Or.inr rfl
    | cons b bs =>
      by_cases hab : a.toNat = b.toNat
      · rcases ih bs with h | h
        · refine Or.inl ?_
          simp only [charListLe]
          rw [if_pos hab]
          exact h
        · refine Or.inr ?_
          simp only [charListLe]
          rw [if_pos hab.symm]
          exact h
      · rcases Nat.lt_or_ge a.toNat b.toNat with h | h
        · refine Or.inl ?_
          simp only [charListLe]
          rw [if_neg hab]
          exact decide_eq_true h
        · refine Or.inr ?_
          simp only [charListLe]
          rw [if_neg (by omega)]
          exact decide_eq_true (by omega)

theorem charListLe_trans :
    ∀ s t u, charListLe s t = true → charListLe t u = true →
      charListLe s u = true := by
  intro s
  induction s with
  | nil => intro t u _ _; rfl
  | cons a as ih =>
    intro t u h₁ h₂
    cases t with
    | nil => simp [charListLe] at h₁
    | cons b bs =>
      cases u with
      | nil => simp [charListLe] at h₂
      | cons c cs =>
        simp only [charListLe] at h₁ h₂ ⊢
        by_cases hab : a.toNat = b.toNat <;> by_cases hbc : b.toNat = c.toNat
        · rw [if_pos hab] at h₁
          rw [if_pos hbc] at h₂
          rw [if_pos (hab.trans hbc)]
          exact ih bs cs h₁ h₂
        · rw [if_pos hab] at h₁
          rw [if_neg hbc] at h₂
          have hlt₂ : b.toNat < c.toNat := of_decide_eq_true h₂
          rw [if_neg (by omega)]
          exact decide_eq_true (by omega)
        · rw [if_neg hab] at h₁
          rw [if_pos hbc] at h₂
          have hlt₁ : a.toNat < b.toNat := of_decide_eq_true h₁
          rw [if_neg (by omega)]
          exact decide_eq_true (by omega)
        · rw [if_neg hab] at h₁
          rw [if_neg hbc] at h₂
          have hlt₁ : a.toNat < b.toNat := of_decide_eq_true h₁
          have hlt₂ : b.toNat < c.toNat := of_decide_eq_true h₂
          rw [if_neg (by omega)]
          exact decide_eq_true (by omega)

theorem keyLe_total (a b : Nat × String) : keyLe a b ∨ keyLe b a := by
  unfold keyLe
  rcases Nat.lt_trichotomy a.1 b.1 with h | h | h
  · exact Or.inl (Or.inl h)
  · rcases charListLe_total a.2.data b.2.data with h₂ | h₂
    · exact Or.inl (Or.inr ⟨h, h₂⟩)
    · exact Or.inr (Or.inr ⟨h.symm, h₂⟩)
  · exact Or.inr (Or.inl h)

theorem keyLe_trans (a b c : Nat × String) (h₁ : keyLe a b) (h₂ : keyLe b c) :
    keyLe a c := by
  unfold keyLe at h₁ h₂ ⊢
  rcases h₁ with h₁ | ⟨h₁, h₁s⟩
  · rcases h₂ with h₂ | ⟨h₂, _⟩
    · exact Or.inl (h₁.trans h₂)
    · exact Or.inl (h₂ ▸ h₁)
  · rcases h₂ with h₂ | ⟨h₂, h₂s⟩
    · exact Or.inl (h₁ ▸ h₂)
    · exact Or.inr ⟨h₁.trans h₂, charListLe_trans _ _ _ h₁s h₂s⟩

theorem pySortedBy_perm {α : Type} (key : α → Nat × String) (l : List α) :
    (pySortedBy key l).Perm l :=
  List.perm_insertionSort _ l

theorem pySortedBy_pairwise {α : Type} (key : α → Nat × String) (l : List α) :
    (pySortedBy key l).Pairwise (fun a b => keyLe (key a) (key b)) := by
  haveI : IsTotal α (fun a b => keyLe (key a) (key b)) :=
    ⟨fun a b => keyLe_total _ _⟩
  haveI : IsTrans α (fun a b => keyLe (key a) (key b)) :=
    ⟨fun a b c => keyLe_trans _ _ _⟩
  exact List.sorted_insertionSort _ l

theorem filter_orderedInsert_neg {α : Type} (r : α → α → Prop) [DecidableRel r]
    (p : α → Bool) (a : α) (ha : p a = false) :
    ∀ l, (List.orderedInsert r a l).filter p = l.filter p := by
  intro l
  induction l with
  | nil => simp [List.orderedInsert, ha]
  | cons b rest ih =>
    by_cases hr : r a b
    · simp [List.orderedInsert, hr, ha]
    · simp only [List.orderedInsert, if_neg hr, List.filter_cons]
      cases hpb : p b <;> simp [ih]

theorem filter_orderedInsert_pos {α : Type} (r : α → α → Prop) [DecidableRel r]
    (p : α → Bool) (a : α) (ha : p a = true) :
    ∀ l, (∀ b ∈ l, p b = true → r a b) →
      (List.orderedInsert r a l).filter p = a :: l.filter p := by
  intro l
  induction l with
  | nil => intro _; simp [List.orderedInsert, ha]
  | cons b rest ih =>
    intro hins
    by_cases hr : r a b
    · simp [List.orderedInsert, hr, List.filter_cons, ha]
    · have hpb : p b = false := by
        cases hpb : p b
        · rfl
        · exact absurd (hins b (List.mem_cons_self b rest) hpb) hr
      simp only [List.orderedInsert, if_neg hr, List.filter_cons, hpb,
        Bool.false_eq_true, if_false]
      exact ih (fun c hc hpc => hins c (List.mem_cons_of_mem b hc) hpc)

/-- Stability on a class of equivalent keys: elements on which `p` holds (all
related pairwise) keep their original relative order through the sort. -/
theorem pySortedBy_filter_stable {α : Type} (key : α → Nat × String)
    (p : α → Bool)
    (hpp : ∀ a b, p a = true → p b = true → keyLe (key a) (key b)) :
    ∀ l, (pySortedBy key l).filter p = l.filter p := by
  intro l
  induction l with
  | nil => rfl
  | cons x rest ih =>
    show ((List.insertionSort _ rest).orderedInsert _ x).filter p = _
    cases hpx : p x with
    | true =>
      rw [filter_orderedInsert_pos _ p x hpx _
        (fun b _ hpb => hpp x b hpx hpb)]
      rw [show (List.insertionSort (fun a b => keyLe (key a) (key b)) rest).filter p
          = rest.filter p from ih]
      simp [List.filter_cons, hpx]
    | false =>
      rw [filter_orderedInsert_neg _ p x hpx]
      rw [show (List.insertionSort (fun a b => keyLe (key a) (key b)) rest).filter p
          = rest.filter p from ih]
      simp [List.filter_cons, hpx]

/-- A sorted list whose order never takes a `p`-failing element past a
`p`-holding one splits into its `p`-block followed by its `¬p`-block. -/
theorem sorted_filter_partition {α : Type} (r : α → α → Prop) (p : α → Bool)
    (hmono : ∀ a b, r a b → p a = false → p b = false) :
    ∀ L : List α, L.Pairwise r → L = L.filter p ++ L.filter (fun a => !p a) := by
  intro L
  induction L with
  | nil => intro _; rfl
  | cons x rest ih =>
    intro hp
    rcases List.pairwise_cons.mp hp with ⟨hx, hrest⟩
    cases hpx : p x with
    | true =>
      simp only [List.filter_cons, hpx, if_true]
      have := ih hrest
      simp only [Bool.not_true, Bool.false_eq_true, if_false, List.cons_append]
      exact congrArg (x :: ·) this
    | false =>
      have hall : ∀ y ∈ rest, p y = false :=
        fun y hy => hmono x y (hx y hy) hpx
      simp only [List.filter_cons, hpx, Bool.false_eq_true, if_false,
        Bool.not_false, if_true]
      rw [List.filter_eq_nil_iff.mpr (fun y hy => by simp [hall y hy]),
        List.filter_eq_self.mpr (fun y hy => by simp [hall y hy])]
      rfl

theorem dbSortKey_dated (pages : List (String × NPage)) (cid : String) :
    dbSortKey pages cid =
      if dateTruthy (dictGet cid pages) then (0, childDate pages cid)
      else (1, "") := by
  unfold dbSortKey dateTruthy childDate
  cases hd : (dictGet cid pages).bind (fun p => p.date) with
  | none => rfl
  | some d =>
    by_cases hde : d = "" <;> simp [hde]

/-- **C8**: `sorting_db_entries` leaves a database untouched when no child has
a (truthy) date; when some child does (and there is more than one child), the
children list becomes the stable sort by the key `(0, date) | (1, "")`, which
is a permutation of the original children in which the dated children form the
leading block in ascending (string) date order and the dateless children form
the trailing block in their original relative order; the spec example
`[none, "2024-01-02", "2023-05-01"]` sorts to `["2023-05-01", "2024-01-02",
none]`. -/
theorem claimC8_theorem :
    (∀ m : Model, (sortingDbEntries m).pages =
      m.pages.map (fun kv => (kv.1, sortDbChildren m.pages kv.2))) ∧
    (∀ (pages : List (String × NPage)) (p : NPage),
      ¬ (p.children.any (fun cid => dateTruthy (dictGet cid pages)) = true) →
      sortDbChildren pages p = p) ∧
    (∀ (pages : List (String × NPage)) (p : NPage),
      p.type = some "database" → 1 < p.children.length →
      p.children.any (fun cid => dateTruthy (dictGet cid pages)) = true →
      sortDbChildren pages p =
        { p with children := pySortedBy (dbSortKey pages) p.children }) ∧
    (∀ (pages : List (String × NPage)) (cs : List String),
      (pySortedBy (dbSortKey pages) cs).Perm cs ∧
      pySortedBy (dbSortKey pages) cs =
        (pySortedBy (dbSortKey pages) cs).filter
          (fun cid => dateTruthy (dictGet cid pages)) ++
        (pySortedBy (dbSortKey pages) cs).filter
          (fun cid => !dateTruthy (dictGet cid pages)) ∧
      (pySortedBy (dbSortKey pages) cs).filter
          (fun cid => !dateTruthy (dictGet cid pages)) =
        cs.filter (fun cid => !dateTruthy (dictGet cid pages)) ∧
      ((pySortedBy (dbSortKey pages) cs).filter
          (fun cid => dateTruthy (dictGet cid pages))).Pairwise
        (fun a b => pyStrLe (childDate pages a) (childDate pages b) = true)) ∧
    (sortingDbEntries modelDbExample).pages.map (fun kv => (kv.1, kv.2.children)) =
      [("db", ["c", "b", "a"]), ("a", []), ("b", []), ("c", [])] := by
  refine ⟨fun m => rfl, ?_, ?_, ?_, by decide⟩
  · intro pages p hno
    unfold sortDbChildren
    by_cases ht : p.type ≠ some "database"
    · rw [if_pos ht]
    · rw [if_neg ht]
      by_cases hlen : p.children.length ≤ 1
      · rw [if_pos hlen]
      · rw [if_neg hlen]
        rw [if_pos]
        simp only [Bool.not_eq_true] at hno ⊢
        simp [hno]
  · intro pages p ht hlen hany
    unfold sortDbChildren
    rw [if_neg (by simp [ht]), if_neg (by omega), if_neg (by simp [hany])]
  · intro pages cs
    refine ⟨pySortedBy_perm _ _, ?_, ?_, ?_⟩
    · refine sorted_filter_partition _ _ ?_ _ (pySortedBy_pairwise _ _)
      intro a b hr hpa
      have hka := dbSortKey_dated pages a
      have hkb := dbSortKey_dated pages b
      rw [hpa] at hka
      simp only [Bool.false_eq_true, if_false] at hka
      by_contra hb
      rw [Bool.not_eq_false] at hb
      rw [hb] at hkb
      simp only [if_true] at hkb
      rw [hka, hkb] at hr
      unfold keyLe at hr
      rcases hr with hr | ⟨hr, _⟩ <;> omega
    · refine pySortedBy_filter_stable _ _ ?_ cs
      intro a b hpa hpb
      have hka : dbSortKey pages a = (1, "") := by
        rw [dbSortKey_dated]
        cases hda : dateTruthy (dictGet a pages)
        · simp
        · rw [hda] at hpa; simp at hpa
      have hkb : dbSortKey pages b = (1, "") := by
        rw [dbSortKey_dated]
        cases hdb : dateTruthy (dictGet b pages)
        · simp
        · rw [hdb] at hpb; simp at hpb
      rw [hka, hkb]
      exact Or.inr ⟨rfl, rfl⟩
    · have hpw := (pySortedBy_pairwise (dbSortKey pages) cs).filter
        (fun cid => dateTruthy (dictGet cid pages))
      refine hpw.imp_of_mem ?_
      intro a b ha hb hr
      rw [List.mem_filter] at ha hb
      have hka := dbSortKey_dated pages a
      have hkb := dbSortKey_dated pages b
      rw [ha.2] at hka
      rw [hb.2] at hkb
      simp only [if_true] at hka hkb
      rw [hka, hkb] at hr
      unfold keyLe at hr
      rcases hr with hr | ⟨_, hr⟩
      · exact absurd hr (by omega)
      · exact hr

/-- **C8** witness: the untouched and the sorted branches applied to the
example fixture. -/
theorem claimC8_witness :
    sortDbChildren modelDbExample.pages { type := some "db_entry" } =
      { type := some "db_entry" } ∧
    sortDbChildren modelDbExample.pages
        { type := some "database", children := ["a", "b", "c"] } =
      { type := some "database",
        children := pySortedBy (dbSortKey modelDbExample.pages) ["a", "b", "c"] } :=
  ⟨claimC8_theorem.2.1 modelDbExample.pages { type := some "db_entry" } (by decide),
   by
     have h := claimC8_theorem.2.2.1 modelDbExample.pages
       { type := some "database", children := ["a", "b", "c"] } rfl (by decide)
       (by decide)
     rw [h]⟩

/-! ## Claim C9: year grouping -/

theorem mapM_loop_ok {α β : Type} (f : α → Except Err β) :
    ∀ (l : List α) (acc : List β) (out : List β),
      List.mapM.loop f l acc = Except.ok out →
      ∃ l', List.Forall₂ (fun a b => f a = Except.ok b) l l' ∧
        out = acc.reverse ++ l' := by
  intro l
  induction l with
  | nil =>
    intro acc out h
    simp only [List.mapM.loop, except_pure_eq, Except.ok.injEq] at h
    exact ⟨[], List.Forall₂.nil, by simp [h.symm]⟩
  | cons a as ih =>
    intro acc out h
    simp only [List.mapM.loop] at h
    cases hf : f a with
    | error e => rw [hf, except_error_bind] at h; cases h
    | ok b =>
      rw [hf, except_ok_bind] at h
      obtain ⟨l', hl', hout⟩ := ih (b :: acc) out h
      exact ⟨b :: l', List.Forall₂.cons hf hl', by simp [hout]⟩

theorem mapM_ok_forall₂ {α β : Type} (f : α → Except Err β) (l : List α)
    (out : List β) (h : l.mapM f = Except.ok out) :
    List.Forall₂ (fun a b => f a = Except.ok b) l out := by
  obtain ⟨l', hl', hout⟩ := mapM_loop_ok f l [] out h
  simpa [hout] using hl'

theorem forall₂_mem_left {α β : Type} {R : α → β → Prop} :
    ∀ {l : List α} {l' : List β}, List.Forall₂ R l l' → ∀ a ∈ l,
      ∃ b ∈ l', R a b := by
  intro l l' h
  induction h with
  | nil => intro a ha; simp at ha
  | cons hR _ ih =>
    intro a ha
    rcases List.mem_cons.mp ha with rfl | ha
    · exact ⟨_, List.mem_cons_self _ _, hR⟩
    · obtain ⟨b, hb, hRb⟩ := ih a ha
      exact ⟨b, List.mem_cons_of_mem _ hb, hRb⟩

theorem isoparse_valid {s : String} {d : PyDateTime}
    (h : isoparse s = Except.ok d) : DTValid d := by
  unfold isoparse at h
  split at h
  · split at h
    case isTrue hv =>
      cases h
      unfold dtValidB at hv
      simp only [Bool.and_eq_true, decide_eq_true_eq] at hv
      unfold DTValid
      omega
    case isFalse => cases h
  · cases h

/-- `dtVal` respects the year on valid datetimes. -/
theorem dtVal_year_le {a b : PyDateTime} (hva : DTValid a) (hvb : DTValid b)
    (h : dtVal b ≤ dtVal a) : b.year ≤ a.year := by
  unfold dtVal at h
  unfold DTValid at hva hvb
  by_contra hlt
  push_neg at hlt
  nlinarith [hva.1, hva.2.1, hva.2.2.1, hva.2.2.2.1, hva.2.2.2.2.1,
    hva.2.2.2.2.2.1, hva.2.2.2.2.2.2, hvb.1, hvb.2.1, hvb.2.2.1,
    hvb.2.2.2.1, hvb.2.2.2.2.1, hvb.2.2.2.2.2.1, hvb.2.2.2.2.2.2]

theorem dropWhile_head_false {α : Type} (p : α → Bool) :
    ∀ (l : List α) (x : α) (xs : List α), l.dropWhile p = x :: xs →
      p x = false := by
  intro l
  induction l with
  | nil => intro x xs h; cases h
  | cons a rest ih =>
    intro x xs h
    rw [List.dropWhile_cons] at h
    by_cases hp : p a
    · rw [if_pos hp] at h
      exact ih x xs h
    · rw [if_neg hp] at h
      cases h
      exact Bool.not_eq_true _ ▸ hp

/-- The groups of `groupby` flatten back to the id sequence. -/
theorem groupRuns_flatten :
    ∀ (fuel : Nat) (l : List (String × PyDateTime)), l.length ≤ fuel →
      (groupRunsAux fuel l).flatMap (fun g => g.2) = l.map (fun q => q.1) := by
  intro fuel
  induction fuel with
  | zero =>
    intro l hl
    have hc : l.length = 0 := by omega
    rw [List.length_eq_zero] at hc
    subst hc
    rfl
  | succ f ih =>
    intro l hl
    cases l with
    | nil => rfl
    | cons q rest =>
      obtain ⟨pid, dt⟩ := q
      have hsub : List.Sublist (rest.dropWhile (fun q => q.2.year = dt.year)) rest :=
        List.dropWhile_sublist _
      have hlen : (rest.dropWhile (fun q => q.2.year = dt.year)).length ≤ f := by
        have := hsub.length_le
        simp only [List.length_cons] at hl
        omega
      rw [show groupRunsAux (f + 1) ((pid, dt) :: rest) =
          (dt.year, pid :: (rest.takeWhile (fun q => q.2.year = dt.year)).map
            (fun q => q.1)) ::
          groupRunsAux f (rest.dropWhile (fun q => q.2.year = dt.year)) from rfl]
      rw [List.flatMap_cons, ih _ hlen]
      simp only [List.map_cons, List.cons_append, List.cons.injEq, true_and]
      rw [← List.map_append, List.takeWhile_append_dropWhile]

/-- Every id listed in a group comes from a pair of the input carrying the
year of the group. -/
theorem groupRuns_member_year :
    ∀ (fuel : Nat) (l : List (String × PyDateTime)) (y : Nat) (ids : List String),
      (y, ids) ∈ groupRunsAux fuel l → ∀ pid ∈ ids,
      ∃ dt, (pid, dt) ∈ l ∧ dt.year = y := by
  intro fuel
  induction fuel with
  | zero => intro l y ids h; cases h
  | succ f ih =>
    intro l y ids h pid hpid
    cases l with
    | nil => cases h
    | cons q rest =>
      obtain ⟨pid₀, dt₀⟩ := q
      simp only [groupRunsAux, List.mem_cons] at h
      rcases h with h | h
      · cases h
        rcases List.mem_cons.mp hpid with rfl | hpid₂
        · exact ⟨dt₀, List.mem_cons_self _ _, rfl⟩
        · rw [List.mem_map] at hpid₂
          obtain ⟨q₂, hq₂, rfl⟩ := hpid₂
          refine ⟨q₂.2, List.mem_cons_of_mem _
            ((List.takeWhile_sublist _).subset hq₂), ?_⟩
          have := List.mem_takeWhile_imp hq₂
          simpa using this
      · obtain ⟨dt, hdt, hy⟩ := ih _ y ids h pid hpid
        exact ⟨dt, List.mem_cons_of_mem _
          ((List.dropWhile_sublist _).subset hdt), hy⟩

/-- Every group is the id projection of a contiguous run, in particular of a
sublist, of the input. -/
theorem groupRuns_run_sublist :
    ∀ (fuel : Nat) (l : List (String × PyDateTime)) (y : Nat) (ids : List String),
      (y, ids) ∈ groupRunsAux fuel l →
      ∃ pairs : List (String × PyDateTime), ids = pairs.map (fun q => q.1) ∧
        List.Sublist pairs l := by
  intro fuel
  induction fuel with
  | zero => intro l y ids h; cases h
  | succ f ih =>
    intro l y ids h
    cases l with
    | nil => cases h
    | cons q rest =>
      obtain ⟨pid₀, dt₀⟩ := q
      simp only [groupRunsAux, List.mem_cons] at h
      rcases h with h | h
      · cases h
        refine ⟨(pid₀, dt₀) :: rest.takeWhile (fun q => q.2.year = dt₀.year),
          by simp, ?_⟩
        exact List.Sublist.cons₂ _ (List.takeWhile_sublist _)
      · obtain ⟨pairs, hids, hsub⟩ := ih _ y ids h
        exact ⟨pairs, hids,
          hsub.trans ((List.dropWhile_sublist _).trans (List.sublist_cons_self _ _))⟩

/-- Every group year is witnessed by an input pair. -/
theorem groupRuns_year_witness :
    ∀ (fuel : Nat) (l : List (String × PyDateTime)) (y : Nat) (ids : List String),
      (y, ids) ∈ groupRunsAux fuel l → ∃ q ∈ l, q.2.year = y := by
  intro fuel
  induction fuel with
  | zero => intro l y ids h; cases h
  | succ f ih =>
    intro l y ids h
    cases l with
    | nil => cases h
    | cons q rest =>
      obtain ⟨pid₀, dt₀⟩ := q
      simp only [groupRunsAux, List.mem_cons] at h
      rcases h with h | h
      · cases h
        exact ⟨(pid₀, dt₀), List.mem_cons_self _ _, rfl⟩
      · obtain ⟨q, hq, hy⟩ := ih _ y ids h
        exact ⟨q, List.mem_cons_of_mem _
          ((List.dropWhile_sublist _).subset hq), hy⟩

/-- On a valid, descending input the run years strictly decrease. -/
theorem groupRuns_years_strict :
    ∀ (fuel : Nat) (l : List (String × PyDateTime)), l.length ≤ fuel →
      (∀ q ∈ l, DTValid q.2) →
      l.Pairwise (fun a b => dtVal b.2 ≤ dtVal a.2) →
      (groupRunsAux fuel l).Pairwise (fun g1 g2 => g2.1 < g1.1) := by
  intro fuel
  induction fuel with
  | zero => intro l _ _ _; exact List.Pairwise.nil
  | succ f ih =>
    intro l hl hv hp
    cases l with
    | nil => exact List.Pairwise.nil
    | cons q rest =>
      obtain ⟨pid₀, dt₀⟩ := q
      simp only [groupRunsAux]
      rcases List.pairwise_cons.mp hp with ⟨hhead, hrest⟩
      have hsubd : List.Sublist (rest.dropWhile (fun q => q.2.year = dt₀.year)) rest :=
        List.dropWhile_sublist _
      have hlen : (rest.dropWhile (fun q => q.2.year = dt₀.year)).length ≤ f := by
        have := hsubd.length_le
        simp only [List.length_cons] at hl
        omega
      have hvrest : ∀ q ∈ rest.dropWhile (fun q => q.2.year = dt₀.year), DTValid q.2 :=
        fun q hq => hv q (List.mem_cons_of_mem _ (hsubd.subset hq))
      have hprest : (rest.dropWhile (fun q => q.2.year = dt₀.year)).Pairwise
          (fun a b => dtVal b.2 ≤ dtVal a.2) := hrest.sublist hsubd
      refine List.pairwise_cons.mpr ⟨?_, ih _ hlen hvrest hprest⟩
      intro g hg
      obtain ⟨q, hq₂, hyq⟩ := groupRuns_year_witness f _ g.1 g.2 (by simpa using hg)
      cases hrd : rest.dropWhile (fun q => q.2.year = dt₀.year) with
      | nil => rw [hrd] at hq₂; cases hq₂
      | cons x xs =>
        rw [hrd] at hq₂
        have hpx : x.2.year ≠ dt₀.year := by
          have := dropWhile_head_false _ rest x xs hrd
          simpa using this
        have hxrest : x ∈ rest := hsubd.subset (hrd ▸ List.mem_cons_self x xs)
        have hxval : dtVal x.2 ≤ dtVal dt₀ := hhead x hxrest
        have hvx : DTValid x.2 := hv x (List.mem_cons_of_mem _ hxrest)
        have hvdt : DTValid dt₀ := hv (pid₀, dt₀) (List.mem_cons_self _ _)
        have hxy : x.2.year < dt₀.year :=
          lt_of_le_of_ne (dtVal_year_le hvdt hvx hxval) hpx
        rcases List.mem_cons.mp hq₂ with rfl | hq₃
        · omega
        · have hqx : dtVal q.2 ≤ dtVal x.2 := by
            rw [hrd] at hprest
            exact (List.pairwise_cons.mp hprest).1 q hq₃
          have hvq : DTValid q.2 := hvrest q (hrd ▸ List.mem_cons_of_mem x hq₃)
          have := dtVal_year_le hvx hvq hqx
          omega

theorem forall₂_mem_right {α β : Type} {R : α → β → Prop} :
    ∀ {l : List α} {l' : List β}, List.Forall₂ R l l' → ∀ b ∈ l',
      ∃ a ∈ l, R a b := by
  intro l l' h
  induction h with
  | nil => intro b hb; simp at hb
  | cons hR _ ih =>
    intro b hb
    rcases List.mem_cons.mp hb with rfl | hb
    · exact ⟨_, List.mem_cons_self _ _, hR⟩
    · obtain ⟨a, ha, hRa⟩ := ih b hb
      exact ⟨a, List.mem_cons_of_mem _ ha, hRa⟩

theorem dictGet_dictSet {κ α : Type} [DecidableEq κ] (k k' : κ) (v : α) :
    ∀ d : List (κ × α),
      dictGet k (dictSet k' v d) = if k' = k then some v else dictGet k d := by
  intro d
  induction d with
  | nil => simp [dictSet, dictGet]
  | cons kv rest ih =>
    obtain ⟨k₁, v₁⟩ := kv
    by_cases hk : k₁ = k'
    · subst hk
      by_cases hkk : k₁ = k <;> simp [dictSet, dictGet, hkk]
    · by_cases hkk : k₁ = k
      · subst hkk
        simp [dictSet, dictGet, hk, Ne.symm hk]
      · simp [dictSet, dictGet, hk, hkk, ih]

theorem dictSet_fresh {κ α : Type} [DecidableEq κ] (k : κ) (v : α) :
    ∀ d : List (κ × α), dictMem k d = false → dictSet k v d = d ++ [(k, v)] := by
  intro d
  induction d with
  | nil => intro _; rfl
  | cons kv rest ih =>
    obtain ⟨k₁, v₁⟩ := kv
    intro hmem
    unfold dictMem dictGet at hmem
    by_cases hk : k₁ = k
    · rw [if_pos hk] at hmem
      simp at hmem
    · rw [if_neg hk] at hmem
      simp only [dictSet, if_neg hk, List.cons_append, List.cons.injEq, true_and]
      exact ih hmem

theorem foldl_dictSet_eq :
    ∀ (gs : List (Nat × List String)) (acc : List (Nat × List String)),
      (∀ g ∈ gs, dictMem g.1 acc = false) →
      (gs.map (fun g => g.1)).Nodup →
      gs.foldl (fun acc yr => dictSet yr.1 yr.2 acc) acc = acc ++ gs := by
  intro gs
  induction gs with
  | nil => intro acc _ _; simp
  | cons g rest ih =>
    intro acc hfresh hnd
    rw [List.foldl_cons]
    have hgfresh : dictMem g.1 acc = false := hfresh g (List.mem_cons_self _ _)
    have hset : dictSet g.1 g.2 acc = acc ++ [(g.1, g.2)] := dictSet_fresh _ _ _ hgfresh
    simp only [List.map_cons, List.nodup_cons, List.mem_map] at hnd
    have hrest : ∀ g₂ ∈ rest, dictMem g₂.1 (dictSet g.1 g.2 acc) = false := by
      intro g₂ hg₂
      unfold dictMem
      rw [dictGet_dictSet]
      have hne : g.1 ≠ g₂.1 := fun he => hnd.1 ⟨g₂, hg₂, he.symm⟩
      rw [if_neg hne]
      exact hfresh g₂ (List.mem_cons_of_mem _ hg₂)
    rw [ih _ hrest hnd.2, hset]
    simp

/-- The successful run of `sorting_page_by_year` decomposed: a parse of the
dated pages, the stable descending sort, the contiguous grouping and the dict
assembly. -/
theorem sortingPageByYear_ok {m m' : Model}
    (h : sortingPageByYear m = Except.ok m') :
    ∃ pairs : List (String × PyDateTime),
      List.Forall₂ (fun kv q => q.1 = kv.1 ∧
          isoparse (kv.2.date.getD "") = Except.ok q.2)
        (m.pages.filter (fun kv => dateTruthy (some kv.2))) pairs ∧
      m'.pages = m.pages ∧
      m'.sorted_id_by_year =
        (groupRuns (List.insertionSort (fun a b => dtVal b.2 ≤ dtVal a.2)
            pairs)).foldl
          (fun acc yr => dictSet yr.1 yr.2 acc) [] := by
  unfold sortingPageByYear at h
  cases hm : (m.pages.filter (fun kv => dateTruthy (some kv.2))).mapM
      (fun kv => do
        let dt ← isoparse (kv.2.date.getD "")
        pure (kv.1, dt)) with
  | error e => rw [hm, except_error_bind] at h; cases h
  | ok pairs =>
    rw [hm, except_ok_bind] at h
    cases h
    refine ⟨pairs, ?_, rfl, rfl⟩
    have hf := mapM_ok_forall₂ _ _ _ hm
    refine hf.imp ?_
    intro kv q hq
    cases hiso : isoparse (kv.2.date.getD "") with
    | error e => rw [hiso, except_error_bind] at hq; cases hq
    | ok dt =>
      rw [hiso, except_ok_bind] at hq
      cases hq
      exact ⟨rfl, rfl⟩

/-- **C9**: a successful `sorting_page_by_year` lists exactly the (truthy)
dated nodes: every id in a year group is a dated page whose parsed date has
that group year; every dated page lands in some group (so dateless nodes are
exactly the excluded ones); within a group the ids are ordered by descending
parsed instant; and the spec example groups to
`{2023: [p2, p1], 2022: [p3]}` with the undated `p4` in no group. -/
theorem claimC9_theorem :
    (∀ (m m' : Model), sortingPageByYear m = Except.ok m' →
      (∀ y ids, (y, ids) ∈ m'.sorted_id_by_year → ∀ pid ∈ ids,
        ∃ p dt, (pid, p) ∈ m.pages ∧ dateTruthy (some p) = true ∧
          isoparse (p.date.getD "") = Except.ok dt ∧ dt.year = y) ∧
      (∀ pid p, (pid, p) ∈ m.pages → dateTruthy (some p) = true →
        ∃ y ids, (y, ids) ∈ m'.sorted_id_by_year ∧ pid ∈ ids) ∧
      (∀ y ids, (y, ids) ∈ m'.sorted_id_by_year →
        ∃ prs : List (String × PyDateTime), ids = prs.map (fun q => q.1) ∧
          prs.Pairwise (fun a b => dtVal b.2 ≤ dtVal a.2))) ∧
    (sortingPageByYear modelYearExample).map (fun m => m.sorted_id_by_year) =
      Except.ok [(2023, ["p2", "p1"]), (2022, ["p3"])] := by
  refine ⟨?_, by decide⟩
  intro m m' h
  obtain ⟨pairs, hf, hpages, hsorted⟩ := sortingPageByYear_ok h
  haveI : IsTotal (String × PyDateTime) (fun a b => dtVal b.2 ≤ dtVal a.2) :=
    ⟨fun a b => le_total (dtVal b.2) (dtVal a.2)⟩
  haveI : IsTrans (String × PyDateTime) (fun a b => dtVal b.2 ≤ dtVal a.2) :=
    ⟨fun a b c h₁ h₂ => le_trans h₂ h₁⟩
  have hperm : (List.insertionSort (fun a b => dtVal b.2 ≤ dtVal a.2) pairs).Perm
      pairs := List.perm_insertionSort _ _
  have hpw : (List.insertionSort (fun a b => dtVal b.2 ≤ dtVal a.2) pairs).Pairwise
      (fun a b => dtVal b.2 ≤ dtVal a.2) := List.sorted_insertionSort _ _
  have hvalid : ∀ q ∈ List.insertionSort (fun a b => dtVal b.2 ≤ dtVal a.2) pairs,
      DTValid q.2 := by
    intro q hq
    obtain ⟨kv, _, _, hiso⟩ := forall₂_mem_right hf q (hperm.mem_iff.mp hq)
    exact isoparse_valid hiso
  have hnodup : ((groupRuns (List.insertionSort
      (fun a b => dtVal b.2 ≤ dtVal a.2) pairs)).map (fun g => g.1)).Nodup := by
    have hyears := groupRuns_years_strict _ _ le_rfl hvalid hpw
    rw [List.Nodup, List.pairwise_map]
    exact hyears.imp (fun hlt => by omega)
  have hdict : m'.sorted_id_by_year =
      groupRuns (List.insertionSort (fun a b => dtVal b.2 ≤ dtVal a.2) pairs) := by
    rw [hsorted, foldl_dictSet_eq _ [] (fun g _ => rfl) hnodup]
    rfl
  refine ⟨?_, ?_, ?_⟩
  · intro y ids hmem pid hpid
    rw [hdict] at hmem
    obtain ⟨dt, hdt, hy⟩ := groupRuns_member_year _ _ y ids hmem pid hpid
    obtain ⟨kv, hkv, hq1, hiso⟩ := forall₂_mem_right hf (pid, dt)
      (hperm.mem_iff.mp hdt)
    rw [List.mem_filter] at hkv
    refine ⟨kv.2, dt, ?_, hkv.2, ?_, hy⟩
    · have : (kv.1, kv.2) = kv := rfl
      rw [show pid = kv.1 from hq1, this]
      exact hkv.1
    · exact hiso
  · intro pid p hmem hdated
    have hfil : (pid, p) ∈ m.pages.filter (fun kv => dateTruthy (some kv.2)) :=
      List.mem_filter.mpr ⟨hmem, hdated⟩
    obtain ⟨q, hq, hq1, _⟩ := forall₂_mem_left hf (pid, p) hfil
    have hq₂ : q ∈ List.insertionSort (fun a b => dtVal b.2 ≤ dtVal a.2) pairs :=
      hperm.mem_iff.mpr hq
    have hflat := groupRuns_flatten
      (List.insertionSort (fun a b => dtVal b.2 ≤ dtVal a.2) pairs).length _ le_rfl
    have hpid : pid ∈ (groupRuns (List.insertionSort
        (fun a b => dtVal b.2 ≤ dtVal a.2) pairs)).flatMap (fun g => g.2) := by
      rw [show groupRuns (List.insertionSort
          (fun a b => dtVal b.2 ≤ dtVal a.2) pairs) = groupRunsAux
          (List.insertionSort (fun a b => dtVal b.2 ≤ dtVal a.2) pairs).length
          (List.insertionSort (fun a b => dtVal b.2 ≤ dtVal a.2) pairs) from rfl,
        hflat]
      rw [List.mem_map]
      exact ⟨q, hq₂, hq1.symm ▸ rfl⟩
    rw [List.mem_flatMap] at hpid
    obtain ⟨g, hg, hpg⟩ := hpid
    refine ⟨g.1, g.2, ?_, hpg⟩
    rw [hdict]
    exact (show (g.1, g.2) = g from rfl) ▸ hg
  · intro y ids hmem
    rw [hdict] at hmem
    obtain ⟨prs, hids, hsub⟩ := groupRuns_run_sublist _ _ y ids hmem
    exact ⟨prs, hids, hpw.sublist hsub⟩

/-- **C9** witness: the grouping theorem applied to the example model. -/
theorem claimC9_witness :
    ∃ m', sortingPageByYear modelYearExample = Except.ok m' ∧
      ∃ y ids, (y, ids) ∈ m'.sorted_id_by_year ∧ "p2" ∈ ids := by
  have hisok : (sortingPageByYear modelYearExample).isOk = true := by decide
  cases hok : sortingPageByYear modelYearExample with
  | error e => rw [hok] at hisok; simp [Except.isOk, Except.toBool] at hisok
  | ok m' =>
    refine ⟨m', rfl, ?_⟩
    exact (claimC9_theorem.1 modelYearExample m' hok).2.1 "p2"
      { type := some "db_entry", date := some "2023-06-01" } (by decide) (by decide)

/-- **C5** witness: the amended theorem applied at concrete inputs. -/
theorem claimC5_witness :
    (∀ c ∈ (cleanUrlString (some "a/b:c*") "untitled_deadbeef").data,
      forbiddenChar c = false) ∧
    cleanUrlString none "untitled_deadbeef" = "untitled_deadbeef" ∧
    cleanUrlString (some "   ") "untitled_deadbeef" = "untitled_deadbeef" :=
  ⟨claimC5_theorem.1 (some "a/b:c*") "untitled_deadbeef" (by decide),
   claimC5_theorem.2.1 none "untitled_deadbeef" (by decide) (Or.inl rfl),
   claimC5_theorem.2.1 (some "   ") "untitled_deadbeef" (by decide)
     (Or.inr ⟨"   ", rfl, by decide⟩)⟩

/-! ## Claim C10: choice of the root page id -/

theorem except_bind_ok {α β : Type} (e : Except Err α) (f : α → Except Err β)
    (b : β) (h : (e >>= f) = Except.ok b) :
    ∃ a, e = Except.ok a ∧ f a = Except.ok b := by
  cases e with
  | error err => rw [except_error_bind] at h; cases h
  | ok a => rw [except_ok_bind] at h; exact ⟨a, rfl, h⟩

theorem findListsInDbs_root (m m' : Model)
    (h : findListsInDbs m = Except.ok m') : m'.root_page_id = m.root_page_id := by
  unfold findListsInDbs at h
  obtain ⟨ps, _, hp⟩ := except_bind_ok _ _ _ h
  cases hp
  rfl

theorem parseFamilyLines_root (fuel : Nat) (m m' : Model)
    (h : parseFamilyLines fuel m = Except.ok m') :
    m'.root_page_id = m.root_page_id := by
  unfold parseFamilyLines at h
  obtain ⟨ps, _, hp⟩ := except_bind_ok _ _ _ h
  cases hp
  rfl

theorem generateUrlsList_root :
    ∀ (fuel : Nat) (stack : List String) (m m' : Model),
      generateUrlsList fuel stack m = Except.ok m' →
      m'.root_page_id = m.root_page_id := by
  intro fuel
  induction fuel with
  | zero =>
    intro stack m m' h
    simp [generateUrlsList, except_throw_eq] at h
  | succ f ih =>
    intro stack m m' h
    cases stack with
    | nil =>
      simp only [generateUrlsList, except_pure_eq, Except.ok.injEq] at h
      subst h
      rfl
    | cons pid rest =>
      simp only [generateUrlsList] at h
      cases hc : candidateUrl pid m with
      | error e => rw [hc, except_error_bind] at h; cases h
      | ok url =>
        rw [hc, except_ok_bind] at h
        by_cases hmem : dictMem pid m.pages = true
        · rw [if_pos hmem] at h
          exact (ih _ (assignUrl pid url m) m' h).trans rfl
        · rw [if_neg hmem] at h
          rw [except_throw_eq] at h
          cases h

theorem parseDbEntryProperties_root (raw : List (String × RawPage)) (m m' : Model)
    (h : parseDbEntryProperties raw m = Except.ok m') :
    m'.root_page_id = m.root_page_id := by
  unfold parseDbEntryProperties at h
  obtain ⟨ps, _, hp⟩ := except_bind_ok _ _ _ h
  cases hp
  rfl

theorem sortingPageByYear_root (m m' : Model)
    (h : sortingPageByYear m = Except.ok m') :
    m'.root_page_id = m.root_page_id := by
  unfold sortingPageByYear at h
  obtain ⟨ps, _, hp⟩ := except_bind_ok _ _ _ h
  cases hp
  rfl

theorem structurize_root (fetch : String → Fetch) (fs₀ : List String)
    (mdBind : String → String × List String) (fuel : Nat)
    (k : String) (v : RawPage) (rest : List (String × RawPage))
    (config : Config) (m' : Model)
    (h : structurizeNotionContent fetch fs₀ mdBind fuel ((k, v) :: rest) config =
      Except.ok m') : m'.root_page_id = k := by
  unfold structurizeNotionContent at h
  obtain ⟨rootId, hr, h⟩ := except_bind_ok _ _ _ h
  cases hr
  obtain ⟨pages, _, h⟩ := except_bind_ok _ _ _ h
  obtain ⟨m₁, h₁, h⟩ := except_bind_ok _ _ _ h
  obtain ⟨m₂, h₂, h⟩ := except_bind_ok _ _ _ h
  obtain ⟨m₃, h₃, h⟩ := except_bind_ok _ _ _ h
  obtain ⟨m₄, h₄, h⟩ := except_bind_ok _ _ _ h
  have hk₁ : m₁.root_page_id = k := findListsInDbs_root _ _ h₁
  have hk₂ : m₂.root_page_id = k := (parseFamilyLines_root _ _ _ h₂).trans hk₁
  have hk₃ : m₃.root_page_id = k :=
    (generateUrlsList_root _ _ _ _ h₃).trans hk₂
  have hk₄ : m₄.root_page_id = k :=
    (parseDbEntryProperties_root _ _ _ h₄).trans hk₃
  cases hdf : config.download_files with
  | false =>
    rw [hdf] at h
    obtain ⟨y, hy, h⟩ := except_bind_ok _ _ _ h
    cases hy
    obtain ⟨m₆, h₆, h⟩ := except_bind_ok _ _ _ h
    have hk₆ : m₆.root_page_id = k := (sortingPageByYear_root _ _ h₆).trans hk₄
    cases h
    cases hcs : config.include_search with
    | false => simp only [hcs, Bool.false_eq_true, if_false]; exact hk₆
    | true => simp only [hcs, if_true]; exact hk₆
  | true =>
    rw [hdf] at h
    obtain ⟨st, _, h⟩ := except_bind_ok _ _ _ h
    obtain ⟨y, hy, h⟩ := except_bind_ok _ _ _ h
    cases hy
    obtain ⟨m₆, h₆, h⟩ := except_bind_ok _ _ _ h
    have hk₆ : m₆.root_page_id = k := (sortingPageByYear_root _ _ h₆).trans hk₄
    cases h
    cases hcs : config.include_search with
    | false => simp only [hcs, Bool.false_eq_true, if_false]; exact hk₆
    | true => simp only [hcs, if_true]; exact hk₆

/-- **C10**: `structurize_notion_content` sets `root_page_id` to the first key
of the raw map (line 549), for every configuration, network oracle, content
binder and raw-map tail — so the root of the site model is determined purely
by the key order of the raw map, not by which record has a workspace
(no-parent) parent; in the fixture the only record with a workspace parent
is the second one, `"par"`, yet the export still roots at the first key,
`"child"`. -/
theorem claimC10_theorem :
    (∀ (fetch : String → Fetch) (fs₀ : List String)
       (mdBind : String → String × List String) (fuel : Nat)
       (k : String) (v : RawPage) (rest : List (String × RawPage))
       (config : Config) (m' : Model),
      structurizeNotionContent fetch fs₀ mdBind fuel ((k, v) :: rest) config =
        Except.ok m' → m'.root_page_id = k) ∧
    (rawChildBeforeParent.filter (fun kv =>
        (kv.2.parent.map (fun pr => pr.ptype == some "workspace")).getD false)).map
      (fun kv => kv.1) = ["par"] ∧
    (structurizeNotionContent (fun _ => Fetch.ok) [] (fun _ => ("", [])) 10
        rawChildBeforeParent {}).map (fun m => m.root_page_id) =
      Except.ok "child" := by
  refine ⟨?_, by decide, by decide⟩
  intro fetch fs₀ mdBind fuel k v rest config m' h
  exact structurize_root fetch fs₀ mdBind fuel k v rest config m' h

/-- **C10** witness: the first-key theorem applied to the concrete fixture
run. -/
theorem claimC10_witness :
    ∃ m', structurizeNotionContent (fun _ => Fetch.ok) [] (fun _ => ("", [])) 10
        rawChildBeforeParent {} = Except.ok m' ∧ m'.root_page_id = "child" := by
  have hisok : (structurizeNotionContent (fun _ => Fetch.ok) [] (fun _ => ("", []))
      10 rawChildBeforeParent {}).isOk = true := by decide
  cases hok : structurizeNotionContent (fun _ => Fetch.ok) [] (fun _ => ("", [])) 10
      rawChildBeforeParent {} with
  | error e => rw [hok] at hisok; simp [Except.isOk, Except.toBool] at hisok
  | ok m' =>
    refine ⟨m', rfl, ?_⟩
    exact claimC10_theorem.1 (fun _ => Fetch.ok) [] (fun _ => ("", [])) 10 "child"
      { object := some "page",
        parent := some { ptype := some "page_id", page_id := some "par" } }
      [("par", { object := some "page",
                 parent := some { ptype := some "workspace", workspace := true } })]
      {} m' hok

end Notion4Ever
